import Mathlib

/-!
Verification development for the mail-directory consistency engine
(`management/mailconfig.py`): address normalization, the user/alias
directory, validated mutation operations, and the required-alias
reconciliation pass (`kick`).

The Python source is shallowly embedded.  Strings are Lean `String`s and
all character-level operations (`split`, `strip`, `lower`, `startswith`)
are implemented on `List Char` via `String.data`, mirroring CPython's
semantics on the ASCII data the program stores.  External collaborators
(the IDNA codec, the password hasher, the mailbox-provisioning agent and
the DNS/web regeneration hooks) are fields of an `Env` record, matching
the spec's treatment of them as opaque interfaces; theorems that depend
on their behaviour carry explicit hypotheses about it.
-/

namespace Mailconfig

/-! ### Character-level primitives (CPython string semantics) -/

/-- The characters Python's `str.strip()` / `\s` treat as whitespace
(ASCII fragment; the program only ever stores ASCII data). -/
def pyIsSpace (c : Char) : Bool :=
  c = ' ' || c = '\t' || c = '\n' || c = '\r' || c = '\x0b' || c = '\x0c'

/-- `l.dropWhile` on both ends: the character-level core of `str.strip()`. -/
def stripChars (l : List Char) : List Char :=
  ((l.dropWhile pyIsSpace).reverse.dropWhile pyIsSpace).reverse

/-- Python's `str.strip()`. -/
def pyStrip (s : String) : String := ⟨stripChars s.data⟩

/-- ASCII case folding of one character, as Python's `str.lower()` does it
on the ASCII range (the directory only holds ASCII addresses, where CPython
and this agree). -/
def pyLowerChar (c : Char) : Char :=
  if 65 ≤ c.toNat ∧ c.toNat ≤ 90 then Char.ofNat (c.toNat + 32) else c

/-- Python's `str.lower()`. -/
def pyLower (s : String) : String := ⟨s.data.map pyLowerChar⟩

/-- Boolean prefix test on character lists (the core of `str.startswith`). -/
def isPrefixB : List Char → List Char → Bool
  | [], _ => true
  | _ :: _, [] => false
  | a :: as, b :: bs => a == b && isPrefixB as bs

/-- Python's `s.startswith(p)`. -/
def pyStartsWith (s p : String) : Bool := isPrefixB p.data s.data

/-- Python's `s.split(c)` for a one-character separator: the list of
(possibly empty) fragments between occurrences of `c`. -/
def splitCh (c : Char) : List Char → List (List Char)
  | [] => [[]]
  | x :: xs =>
    match splitCh c xs with
    | [] => [[]]
    | h :: t => if x = c then [] :: h :: t else (x :: h) :: t

/-- Inverse of `splitCh`: join fragments with the separator. -/
def joinCh (c : Char) : List (List Char) → List Char
  | [] => []
  | [x] => x
  | x :: y :: t => x ++ c :: joinCh c (y :: t)

/-- Python's `s.split(c, 1)` when `c` occurs: the part before the first
occurrence and everything after it; `none` when `c` is absent. -/
def splitFirstCh (c : Char) : List Char → Option (List Char × List Char)
  | [] => none
  | x :: xs =>
    if x = c then some ([], xs)
    else (splitFirstCh c xs).map (fun p => (x :: p.1, p.2))

/-- Python's `localpart, domainpart = email.split("@")`: succeeds exactly
when the string contains a single `@` (otherwise the unpacking raises). -/
def splitEmail (s : String) : Option (String × String) :=
  match splitCh '@' s.data with
  | [l, d] => some (⟨l⟩, ⟨d⟩)
  | _ => none

/-! ### Basic lemmas about the primitives -/

theorem splitCh_ne_nil (c : Char) (l : List Char) : splitCh c l ≠ [] := by
  cases l with
  | nil => simp [splitCh]
  | cons x xs =>
    simp only [splitCh]
    cases h : splitCh c xs with
    | nil => simp
    | cons h t =>
      by_cases hx : x = c <;> simp [hx]

theorem splitCh_of_not_mem {c : Char} {l : List Char} (h : c ∉ l) :
    splitCh c l = [l] := by
  induction l with
  | nil => rfl
  | cons x xs ih =>
    have hx : x ≠ c := fun he => h (he ▸ List.mem_cons_self x xs)
    have hxs : c ∉ xs := fun hm => h (List.mem_cons_of_mem _ hm)
    simp [splitCh, ih hxs, hx]

theorem splitCh_append_cons {c : Char} {l₁ : List Char} (l₂ : List Char)
    (h : c ∉ l₁) : splitCh c (l₁ ++ c :: l₂) = l₁ :: splitCh c l₂ := by
  induction l₁ with
  | nil =>
    simp only [List.nil_append, splitCh]
    cases hs : splitCh c l₂ with
    | nil => exact absurd hs (splitCh_ne_nil c l₂)
    | cons a t => simp
  | cons x xs ih =>
    have hx : x ≠ c := fun he => h (he ▸ List.mem_cons_self x xs)
    have hxs : c ∉ xs := fun hm => h (List.mem_cons_of_mem _ hm)
    simp only [List.cons_append, splitCh]
    rw [show (xs.append (c :: l₂)) = xs ++ c :: l₂ from rfl, ih hxs]
    simp [hx]

theorem joinCh_splitCh (c : Char) (l : List Char) :
    joinCh c (splitCh c l) = l := by
  induction l with
  | nil => rfl
  | cons x xs ih =>
    simp only [splitCh]
    cases hs : splitCh c xs with
    | nil => exact absurd hs (splitCh_ne_nil c xs)
    | cons h t =>
      rw [hs] at ih
      by_cases hx : x = c
      · subst hx
        simp only [if_pos rfl]
        cases t with
        | nil => simpa [joinCh] using congrArg (x :: ·) ih
        | cons y ys => simpa [joinCh] using congrArg (x :: ·) ih
      · simp only [if_neg hx]
        cases t with
        | nil => simpa [joinCh] using congrArg (x :: ·) ih
        | cons y ys => simpa [joinCh] using congrArg (x :: ·) ih

theorem not_mem_of_mem_splitCh {c : Char} {l m : List Char}
    (hm : m ∈ splitCh c l) : c ∉ m := by
  induction l generalizing m with
  | nil =>
    simp only [splitCh, List.mem_singleton] at hm
    subst hm; simp
  | cons x xs ih =>
    simp only [splitCh] at hm
    cases hs : splitCh c xs with
    | nil => exact absurd hs (splitCh_ne_nil c xs)
    | cons h t =>
      rw [hs] at hm
      change m ∈ (if x = c then [] :: h :: t else (x :: h) :: t) at hm
      by_cases hx : x = c
      · subst hx
        rw [if_pos rfl] at hm
        rcases List.mem_cons.1 hm with hm₁ | hm₂
        · subst hm₁; simp
        · exact ih (hs ▸ hm₂)
      · rw [if_neg hx] at hm
        rcases List.mem_cons.1 hm with hm₁ | hm₂
        · subst hm₁
          intro hc
          rcases List.mem_cons.1 hc with hc | hc
          · exact hx hc.symm
          · exact ih (hs ▸ List.mem_cons_self h t) hc
        · exact ih (hs ▸ List.mem_cons_of_mem _ hm₂)

theorem length_splitCh (c : Char) (l : List Char) :
    (splitCh c l).length = l.count c + 1 := by
  induction l with
  | nil => simp [splitCh]
  | cons x xs ih =>
    simp only [splitCh]
    cases hs : splitCh c xs with
    | nil => exact absurd hs (splitCh_ne_nil c xs)
    | cons h t =>
      rw [hs] at ih
      by_cases hx : x = c
      · subst hx
        simp only [if_pos rfl, List.count_cons_self]
        simpa using ih
      · have : (x :: xs).count c = xs.count c := by
          simp [List.count_cons, hx]
        simp only [if_neg hx, this]
        simpa using ih

theorem splitFirstCh_append_cons {c : Char} {l₁ : List Char} (l₂ : List Char)
    (h : c ∉ l₁) : splitFirstCh c (l₁ ++ c :: l₂) = some (l₁, l₂) := by
  induction l₁ with
  | nil => simp [splitFirstCh]
  | cons x xs ih =>
    have hx : x ≠ c := fun he => h (he ▸ List.mem_cons_self x xs)
    have hxs : c ∉ xs := fun hm => h (List.mem_cons_of_mem _ hm)
    simp [splitFirstCh, hx, ih hxs]

theorem stripChars_of_no_space {l : List Char}
    (h : ∀ x ∈ l, pyIsSpace x = false) : stripChars l = l := by
  unfold stripChars
  have h₁ : l.dropWhile pyIsSpace = l := by
    cases l with
    | nil => rfl
    | cons x xs => simp [List.dropWhile_cons, h x (List.mem_cons_self x xs)]
  rw [h₁]
  have h₂ : l.reverse.dropWhile pyIsSpace = l.reverse := by
    cases hr : l.reverse with
    | nil => rfl
    | cons x xs =>
      have hx : x ∈ l := by
        have : x ∈ l.reverse := hr ▸ List.mem_cons_self x xs
        simpa using this
      simp [List.dropWhile_cons, h x hx]
  rw [h₂, List.reverse_reverse]

theorem isPrefixB_append_self (p rest : List Char) :
    isPrefixB p (p ++ rest) = true := by
  induction p with
  | nil => rfl
  | cons x xs ih => simp [isPrefixB, ih]

theorem map_pyLowerChar_of_no_upper {l : List Char}
    (h : ∀ x ∈ l, ¬ (65 ≤ x.toNat ∧ x.toNat ≤ 90)) :
    l.map pyLowerChar = l := by
  induction l with
  | nil => rfl
  | cons x xs ih =>
    have hx : pyLowerChar x = x := by
      unfold pyLowerChar
      rw [if_neg (h x (List.mem_cons_self x xs))]
    rw [List.map_cons, hx, ih (fun y hy => h y (List.mem_cons_of_mem _ hy))]

theorem string_eq_of_data {s t : String} (h : s.data = t.data) : s = t :=
  String.ext h

theorem data_mk (l : List Char) : (String.mk l).data = l := rfl

theorem string_append_data (a b : String) : (a ++ b).data = a.data ++ b.data := by
  cases a; cases b; rfl

/-! ### Environment: configuration plus external collaborators

`env` in the Python source carries the configuration (`PRIMARY_HOSTNAME`);
the source additionally calls out to external collaborators: CPython's
IDNA codec, `doveadm pw` for password hashing, `doveadm mailbox` for
provisioning, and the DNS/web regeneration hooks.  These are bundled here
as opaque fields; theorems that depend on codec behaviour state it as
explicit hypotheses. -/

structure Env where
  /-- `env['PRIMARY_HOSTNAME']`. -/
  primaryHostname : String
  /-- Models `domainpart.encode("idna").decode("ascii")`: `none` when the
  codec raises `UnicodeError`. -/
  encodeIdna : String → Option String
  /-- Models `domainpart.decode("idna")` applied to an ASCII byte string:
  `none` when the codec raises. -/
  decodeIdna : String → Option String
  /-- Result string of the external `do_dns_update(env)` collaborator. -/
  dnsUpdateResult : String
  /-- Result string of the external `do_web_update(env)` collaborator. -/
  webUpdateResult : String
  /-- Models `hash_password` (`doveadm pw -s SHA512-CRYPT`): an opaque
  scheme-prefixed credential string. -/
  hashPassword : String → String
  /-- Models `doveadm mailbox list -u email`: the user's existing mailbox
  folders, or an error output when the subprocess fails
  (`subprocess.CalledProcessError`). -/
  listMailboxes : String → Except String (List String)

/-! ### Address Normalizer -/

/-- Lowercase ASCII letter (`a`-`z`, code points 97-122). -/
def isLowerAlpha (c : Char) : Bool :=
  decide (97 ≤ c.toNat) && decide (c.toNat ≤ 122)

/-- Uppercase ASCII letter (`A`-`Z`, code points 65-90). -/
def isUpperAlpha (c : Char) : Bool :=
  decide (65 ≤ c.toNat) && decide (c.toNat ≤ 90)

/-- ASCII digit (`0`-`9`, code points 48-57). -/
def isDigitCh (c : Char) : Bool :=
  decide (48 ≤ c.toNat) && decide (c.toNat ≤ 57)

/-- A character admissible in a hostname label of an address already in
lowercase ASCII (IDNA) form, as stored in the directory. -/
def asciiDomainChar (c : Char) : Bool := isLowerAlpha c || isDigitCh c || c = '-'

/-- A domain already in its stored form: non-empty, dot-separated non-empty
labels over lowercase ASCII letters, digits and hyphens.  CPython's `idna`
codec maps such a domain to itself. -/
def asciiDomainB (d : String) : Bool :=
  !d.data.isEmpty &&
    (splitCh '.' d.data).all (fun lab => !lab.isEmpty && lab.all asciiDomainChar)

/-- A character admissible in a domain label for syntactic validation
(either case, digits, hyphens). -/
def domainChar (c : Char) : Bool :=
  isLowerAlpha c || isUpperAlpha c || isDigitCh c || c = '-'

/-- Syntactically well-formed domain part: non-empty, dot-separated
non-empty labels of letters, digits and hyphens. -/
def wfDomainB (d : String) : Bool :=
  !d.data.isEmpty &&
    (splitCh '.' d.data).all (fun lab => !lab.isEmpty && lab.all domainChar)

/-- A character admissible in the local part of an address. -/
def localChar (c : Char) : Bool :=
  isLowerAlpha c || isUpperAlpha c || isDigitCh c
    || c = '.' || c = '_' || c = '-' || c = '+' || c = '%' || c = '='

/-- The validation modes of `validate_email` (`mode=None`, `mode="user"`,
`mode="alias"` in the source). -/
inductive EmailMode where
  | plain
  | user
  | alias
deriving DecidableEq

/-- Models `validate_email` of the source.  The syntax check is
Modelled from the spec: the external `email_validator` library call
(`allow_smtputf8=False`, `check_deliverability=False`,
`allow_empty_local=(mode=="alias")`) is not part of this repository; per
the spec it checks general syntactic validity — exactly one `@`, a
non-empty local part (empty allowed only in alias mode, permitting the
bare `@domain` catch-all form), ASCII-only content, and a well-formed
domain.  The extra `mode == 'user'` restrictions (length at most 255 and
the character class of `re.search(r'[^\@\.a-z0-9_\-]+', email)`) are
translated directly from the source. -/
def validate_email (email : String) (mode : EmailMode := .plain) : Bool :=
  (match splitEmail email with
   | none => false
   | some (l, d) =>
     (!l.data.isEmpty || decide (mode = EmailMode.alias))
       && l.data.all localChar && wfDomainB d)
  && (match mode with
      | .user =>
        decide (email.length ≤ 255)
          && email.data.all (fun c =>
               c = '@' || c = '.' || isLowerAlpha c || isDigitCh c || c = '_' || c = '-')
      | _ => true)

/-- `sanitize_idn_email_address`: convert the domain part to IDNA; on any
failure (no unique `@`, or the codec raising) return the input unchanged. -/
def sanitize_idn_email_address (env : Env) (email : String) : String :=
  match splitEmail email with
  | some (localpart, domainpart) =>
    match env.encodeIdna domainpart with
    | some d => localpart ++ "@" ++ d
    | none => email
  | none => email

/-- `prettify_idn_email_address`: decode the stored IDNA domain back to
Unicode; on any failure (no unique `@`, non-ASCII domain so that
`.encode("ascii")` raises, or the IDNA decode raising) return the input
unchanged. -/
def prettify_idn_email_address (env : Env) (email : String) : String :=
  match splitEmail email with
  | some (localpart, domainpart) =>
    if domainpart.data.all (fun c => c.toNat < 128) then
      match env.decodeIdna domainpart with
      | some d => localpart ++ "@" ++ d
      | none => email
    else email
  | none => email

/-- The reserved local parts of `is_dcv_address`. -/
def dcvLocalparts : List String :=
  ["admin", "administrator", "postmaster", "hostmaster", "webmaster"]

/-- `is_dcv_address`: the lowercased address starts with a reserved local
part followed by `@` or by a plus tag. -/
def is_dcv_address (email : String) : Bool :=
  let e := pyLower email
  dcvLocalparts.any (fun localpart =>
    pyStartsWith e (localpart ++ "@") || pyStartsWith e (localpart ++ "+"))

/-- `validate_password`: returns the message of the `ValueError` the source
raises, or `none` when the password is acceptable. -/
def validate_password (pw : String) : Option String :=
  if pyStrip pw = "" then some "No password provided."
  else if pw.data.any pyIsSpace then some "Passwords cannot contain spaces."
  else if pw.length < 4 then some "Passwords must be at least four characters."
  else none

/-! ### Directory store state -/

/-- One row of the `users` table: `(email, password, privileges)`, the
latter a newline-delimited text field. -/
structure MailUser where
  email : String
  password : String
  privileges : String
deriving DecidableEq, Repr

/-- The persistent directory: the `users` and `aliases` tables, rows in
insertion order.  `aliases` rows are `(source, destination)`, the
destination a comma-delimited text field. -/
structure State where
  users : List MailUser
  aliases : List (String × String)
deriving DecidableEq, Repr

/-- Outcome of a mutation operation: a normal return value, a returned
`(reason, http-status)` client-error tuple, or an exception that escapes
the operation (the source's uncaught `ValueError`). -/
inductive MResult (α : Type) where
  | ok : α → MResult α
  | clientError : String → Nat → MResult α
  | raised : String → MResult α
deriving DecidableEq, Repr

/-! ### Directory Reader -/

/-- Python's lexicographic string ordering (code-point comparison),
character-list level. -/
def charsLEb : List Char → List Char → Bool
  | [], _ => true
  | _ :: _, [] => false
  | x :: xs, y :: ys =>
    if x.toNat = y.toNat then charsLEb xs ys else decide (x.toNat < y.toNat)

theorem charsLEb_total : ∀ a b : List Char,
    charsLEb a b = true ∨ charsLEb b a = true := by
  intro a
  induction a with
  | nil => intro b; left; rfl
  | cons x xs ih =>
    intro b
    cases b with
    | nil => right; rfl
    | cons y ys =>
      by_cases hxy : x.toNat = y.toNat
      · rcases ih ys with h | h
        · left; simp only [charsLEb, if_pos hxy]; exact h
        · right; simp only [charsLEb, if_pos hxy.symm]; exact h
      · rcases Nat.lt_or_ge x.toNat y.toNat with hlt | hge
        · left
          simp only [charsLEb, if_neg hxy]
          exact decide_eq_true hlt
        · have hgt : y.toNat < x.toNat := lt_of_le_of_ne hge (fun he => hxy he.symm)
          have hyx : y.toNat ≠ x.toNat := fun he => hxy he.symm
          right
          simp only [charsLEb, if_neg hyx]
          exact decide_eq_true hgt

theorem charsLEb_trans : ∀ a b c : List Char,
    charsLEb a b = true → charsLEb b c = true → charsLEb a c = true := by
  intro a
  induction a with
  | nil => intro b c _ _; rfl
  | cons x xs ih =>
    intro b c hab hbc
    cases b with
    | nil => simp [charsLEb] at hab
    | cons y ys =>
      cases c with
      | nil => simp [charsLEb] at hbc
      | cons z zs =>
        simp only [charsLEb] at hab hbc ⊢
        by_cases hxy : x.toNat = y.toNat
        · by_cases hyz : y.toNat = z.toNat
          · rw [if_pos hxy] at hab
            rw [if_pos hyz] at hbc
            rw [if_pos (hxy.trans hyz)]
            exact ih ys zs hab hbc
          · rw [if_neg hyz] at hbc
            have : x.toNat < z.toNat := hxy ▸ of_decide_eq_true hbc
            rw [if_neg (Nat.ne_of_lt this)]
            exact decide_eq_true this
        · rw [if_neg hxy] at hab
          have hxyl : x.toNat < y.toNat := of_decide_eq_true hab
          by_cases hyz : y.toNat = z.toNat
          · have : x.toNat < z.toNat := hyz ▸ hxyl
            rw [if_neg (Nat.ne_of_lt this)]
            exact decide_eq_true this
          · rw [if_neg hyz] at hbc
            have : x.toNat < z.toNat := hxyl.trans (of_decide_eq_true hbc)
            rw [if_neg (Nat.ne_of_lt this)]
            exact decide_eq_true this

/-- The domain part of an address: everything after the first `@`.  The
source's `emailaddr.split('@', 1)[1]` raises `IndexError` when `@` is
absent; stored addresses always contain one, and the `""` default is never
reached under the well-formedness invariant carried by the theorems. -/
def domainOfD (s : String) : String :=
  match splitFirstCh '@' s.data with
  | some p => ⟨p.2⟩
  | none => ""

/-- `get_domain`: domain part of an address, optionally IDNA-decoded for
display (`none` models the raise on a missing `@` or a codec failure). -/
def get_domain (env : Env) (emailaddr : String) (asUnicode : Bool) :
    Option String :=
  match splitFirstCh '@' emailaddr.data with
  | none => none
  | some p =>
    if asUnicode then
      if (⟨p.2⟩ : String).data.all (fun c => c.toNat < 128) then
        env.decodeIdna ⟨p.2⟩
      else none
    else some (⟨p.2⟩ : String)

/-- Modelled from the spec: `utils.sort_email_addresses` (the `utils`
module is not part of this repository) puts addresses in a canonical
order - by domain, then by the address lexicographically. -/
def emailOrder (a b : String) : Prop :=
  charsLEb (domainOfD a).data (domainOfD b).data = true
    ∧ (domainOfD a = domainOfD b → charsLEb a.data b.data = true)

instance : DecidableRel emailOrder := fun a b => by
  unfold emailOrder; infer_instance

/-- Modelled from the spec: `utils.sort_email_addresses`. -/
def sort_email_addresses (l : List String) : List String :=
  List.insertionSort emailOrder l

/-- `get_mail_users`: the flat, sorted list of all account addresses. -/
def get_mail_users (env : Env) (s : State) : List String :=
  sort_email_addresses (s.users.map (·.email))

/-- The destination stored for a source: Python reads all rows into a
dict, so a later duplicate row would win; sources are unique in practice
(primary key). -/
def lastDestOf (s : State) (src : String) : String :=
  (((s.aliases.filter (fun a => a.1 == src)).map (·.2)).getLast?).getD ""

/-- `get_mail_aliases`: the `(source, destination)` pairs in canonical
order. -/
def get_mail_aliases (env : Env) (s : State) : List (String × String) :=
  (sort_email_addresses ((s.aliases.map (·.1)).dedup)).map
    (fun src => (src, lastDestOf s src))

/-- `get_mail_domains`: the IDNA-form domain names of all configured
addresses, alias sources filtered by `filter_aliases`.  (`get_domain`
cannot fail here with `as_unicode=False` on stored addresses; the `""`
default mirrors `domainOfD`.) -/
def get_mail_domains (env : Env) (s : State)
    (filter_aliases : String × String → Bool := fun _ => true) : List String :=
  ((get_mail_users env s).map (fun addr => ((get_domain env addr false).getD ""))
    ++ ((get_mail_aliases env s).filter filter_aliases).map
        (fun a => ((get_domain env a.1 false).getD ""))).dedup

/-- `parse_privs`: split the stored newline-delimited privilege field. -/
def parse_privs (value : String) : List String :=
  ((splitCh '\n' value.data).map (fun p => (⟨p⟩ : String))).filter
    (fun p => pyStrip p ≠ "")

/-- `get_mail_user_privileges`: privileges of one account, or a
client-error tuple (empty list instead when `empty_on_error`). -/
def get_mail_user_privileges (email : String) (s : State)
    (empty_on_error : Bool := false) : Sum (String × Nat) (List String) :=
  match s.users.filter (fun u => u.email == email) with
  | [u] => Sum.inr (parse_privs u.privileges)
  | _ =>
    if empty_on_error then Sum.inr []
    else Sum.inl ("That's not a user (" ++ email ++ ").", 400)

/-- `validate_privilege`. -/
def validate_privilege (priv : String) : Option (String × Nat) :=
  if priv.data.contains '\n' || pyStrip priv = "" then
    some ("That's not a valid privilege (" ++ priv ++ ").", 400)
  else none

/-! ### Reconciliation Engine and Mutation Operations

The Python `add_mail_alias`/`remove_mail_alias` take a `do_kick` flag so
that `kick` itself can call them without recursing.  The embedding
factors this as `*_core` (the operation without the trailing `kick`,
exactly the `do_kick=False` behaviour) plus a public wrapper that runs
`kick` afterwards (`do_kick=True`). -/

/-- `get_system_administrator`. -/
def get_system_administrator (env : Env) : String :=
  "administrator@" ++ env.primaryHostname

/-- The alias filter used by `get_required_aliases` when computing the
domains that carry real mail: drop `postmaster@`/`admin@` sources and
catch-alls. -/
def requiredAliasFilter (a : String × String) : Bool :=
  !pyStartsWith a.1 "postmaster@" && !pyStartsWith a.1 "admin@"
    && !pyStartsWith a.1 "@"

/-- `get_required_aliases`: the administrator and hostmaster aliases on
the primary hostname plus `postmaster@`/`admin@` on every real mail
domain.  The Python set is modelled as a deduplicated list in insertion
order. -/
def get_required_aliases (env : Env) (s : State) : List String :=
  ([get_system_administrator env, "hostmaster@" ++ env.primaryHostname]
    ++ (get_mail_domains env s requiredAliasFilter).flatMap
        (fun domain => ["postmaster@" ++ domain, "admin@" ++ domain])).dedup

/-- The entries of the destination specification: split on newlines then
commas, strip each, drop empties (the loop's `continue`). -/
def parseDestEntries (destination : String) : List String :=
  (((splitCh '\n' destination.data).flatMap (splitCh ','))
    |>.map (fun e => pyStrip (⟨e⟩ : String))).filter (fun e => e ≠ "")

/-- The policy-violation message for domain-control sources. -/
def dcvDestMsg : String :=
  "This alias can only have administrators of this system as destinations because the address is frequently used for domain control validation."

/-- `"admin" in get_mail_user_privileges(email, env, empty_on_error=True)`:
whether the address belongs to an account holding the `admin` privilege. -/
def destIsAdmin (s : State) (email : String) : Bool :=
  match get_mail_user_privileges email s true with
  | Sum.inr privs => privs.contains "admin"
  | Sum.inl _ => false

/-- The per-destination validation loop of `add_mail_alias` (non-catch-all
branch): sanitize, validate as a full address, and for a domain-control
source require each destination to be a domain-control address or an
admin account. -/
def processDests (env : Env) (s : State) (is_dcv_source : Bool) :
    List String → Sum (String × Nat) (List String)
  | [] => Sum.inr []
  | e :: rest =>
    let email := sanitize_idn_email_address env e
    if !validate_email email then
      Sum.inl ("Invalid destination email address (" ++ email ++ ").", 400)
    else if is_dcv_source && !is_dcv_address email && !destIsAdmin s email then
      Sum.inl (dcvDestMsg, 400)
    else
      match processDests env s is_dcv_source rest with
      | Sum.inl err => Sum.inl err
      | Sum.inr dests => Sum.inr (email :: dests)

/-- `add_mail_alias` with `do_kick=False`: everything up to and including
the database write.  `Sum.inr` carries the `return_status` string. -/
def add_mail_alias_core (env : Env) (source destination : String)
    (update_if_exists : Bool) (s : State) :
    Sum (String × Nat) String × State :=
  let source₁ := sanitize_idn_email_address env source
  let source₂ := pyLower source₁
  let source₃ := pyStrip source₂
  if source₃ = "" then
    (Sum.inl ("No incoming email address provided.", 400), s)
  else if !validate_email source₃ .alias then
    (Sum.inl ("Invalid incoming email address (" ++ source₃ ++ ").", 400), s)
  else
    let is_dcv_source := is_dcv_address source₃
    let destination₁ := pyStrip destination
    let d1 := sanitize_idn_email_address env destination₁
    let destsRes :=
      if validate_email d1 .alias && !is_dcv_source then Sum.inr [d1]
      else processDests env s is_dcv_source (parseDestEntries destination₁)
    match destsRes with
    | Sum.inl err => (Sum.inl err, s)
    | Sum.inr dests =>
      -- The source checks `len(destination) == 0` here - the length of the
      -- stripped destination string, not of the parsed `dests` list.
      if destination₁.length = 0 then
        (Sum.inl ("No destination email address(es) provided.", 400), s)
      else
        let destinationJoined := String.intercalate "," dests
        if s.aliases.any (fun a => a.1 == source₃) then
          if !update_if_exists then
            (Sum.inl ("Alias already exists (" ++ source₃ ++ ").", 400), s)
          else
            let updated := s.aliases.map
              (fun a => if a.1 == source₃ then (a.1, destinationJoined) else a)
            (Sum.inr "alias updated", { s with aliases := updated })
        else
          (Sum.inr "alias added",
           { s with aliases := s.aliases ++ [(source₃, destinationJoined)] })

/-- `remove_mail_alias` with `do_kick=False`.  The `DELETE`'s rowcount must
be exactly 1, otherwise the error tuple is returned without a commit (so
the transaction rolls back). -/
def remove_mail_alias_core (env : Env) (source : String) (s : State) :
    Sum (String × Nat) Unit × State :=
  let source₁ := sanitize_idn_email_address env source
  if (s.aliases.filter (fun a => a.1 == source₁)).length = 1 then
    (Sum.inr (),
     { s with aliases := s.aliases.filter (fun a => !(a.1 == source₁)) })
  else
    (Sum.inl ("That's not an alias (" ++ source₁ ++ ").", 400), s)

/-- The body of `ensure_admin_alias_exists`, folded over the required
aliases: skip when satisfied by an account or an existing alias (checked
against the snapshots read up front), otherwise create
`r -> administrator` through the internally-suppressed add path and
record the action.  (The Python appends the message unconditionally after
the call; under the store invariant the insert always succeeds.) -/
def kickAddStep (env : Env) (existing_users : List String)
    (existing_aliases : List (String × String))
    (acc : List String × State) (r : String) : List String × State :=
  if existing_users.contains r then acc
  else if existing_aliases.any (fun p => p.1 == r) then acc
  else
    (acc.1 ++ ["added alias " ++ r ++ " (=> " ++ get_system_administrator env ++ ")\n"],
     (add_mail_alias_core env r (get_system_administrator env) false acc.2).2)

/-- The removal condition of `kick`'s cleanup loop:
`user, domain = source.split("@")` (the unpack raises on a source without
a unique `@`, which the store invariant rules out; modelled as
not-matching), then `user in ("postmaster", "admin") and source not in
required_aliases and target == administrator`. -/
def kickRemoveCond (env : Env) (required_aliases : List String)
    (p : String × String) : Bool :=
  match splitEmail p.1 with
  | some (user, _domain) =>
    (user = "postmaster" || user = "admin")
      && !required_aliases.contains p.1
      && p.2 == get_system_administrator env
  | none => false

/-- The body of the cleanup loop, folded over the alias snapshot. -/
def kickRemoveStep (env : Env) (required_aliases : List String)
    (acc : List String × State) (p : String × String) : List String × State :=
  if kickRemoveCond env required_aliases p then
    (acc.1 ++ ["removed alias " ++ p.1 ++ " (was to " ++ p.2
        ++ "; domain no longer used for email)\n"],
     (remove_mail_alias_core env p.1 acc.2).2)
  else acc

/-- The action messages and the state transition of `kick`, without the
report assembly: ensure every required alias exists (checked against the
snapshots `existing_users`/`existing_aliases` read once up front), then
remove the auto-generated `postmaster@`/`admin@` aliases whose domain is
no longer required and whose destination is still the administrator. -/
def kickActions (env : Env) (s : State) : List String × State :=
  let existing_users := get_mail_users env s
  let existing_aliases := get_mail_aliases env s
  let required_aliases := get_required_aliases env s
  let phase1 :=
    required_aliases.foldl (kickAddStep env existing_users existing_aliases)
      ([], s)
  existing_aliases.foldl (kickRemoveStep env required_aliases) phase1

/-- `kick`: run the reconciliation actions, then the DNS and web
regeneration collaborators, and join every non-empty result string. -/
def kick (env : Env) (s : State) (mail_result : Option String := none) :
    String × State :=
  let (acts, s') := kickActions env s
  let results :=
    (match mail_result with
     | some m => [m ++ "\n"]
     | none => []) ++ acts ++ [env.dnsUpdateResult, env.webUpdateResult]
  (String.join (results.filter (fun r => r ≠ "")), s')

/-- `add_mail_alias` with the default `do_kick=True`. -/
def add_mail_alias (env : Env) (source destination : String)
    (update_if_exists : Bool) (s : State) : MResult String × State :=
  match add_mail_alias_core env source destination update_if_exists s with
  | (Sum.inl (m, n), s') => (MResult.clientError m n, s')
  | (Sum.inr return_status, s') =>
    let (report, s'') := kick env s' (some return_status)
    (MResult.ok report, s'')

/-- `remove_mail_alias` with the default `do_kick=True`. -/
def remove_mail_alias (env : Env) (source : String) (s : State) :
    MResult String × State :=
  match remove_mail_alias_core env source s with
  | (Sum.inl (m, n), s') => (MResult.clientError m n, s')
  | (Sum.inr _, s') =>
    let (report, s'') := kick env s' (some "alias removed")
    (MResult.ok report, s'')

/-- `add_mail_user`: validate the address (empty, plain syntax, user-mode
character set, domain-control policy with the first-account exemption),
validate the password (which raises on failure), validate the privilege
tokens, insert, provision mailbox folders via the external agent (rolling
the insert back if listing fails), and finally `kick`. -/
def add_mail_user (env : Env) (email pw privs : String) (s : State) :
    MResult String × State :=
  if pyStrip email = "" then
    (MResult.clientError "No email address provided." 400, s)
  else if !validate_email email then
    (MResult.clientError "Invalid email address." 400, s)
  else if !validate_email email .user then
    (MResult.clientError "User account email addresses may only use the lowercase ASCII letters a-z, the digits 0-9, underscore (_), hyphen (-), and period (.)." 400, s)
  else if is_dcv_address email && (get_mail_users env s).length > 0 then
    (MResult.clientError "You may not make a user account for that address because it is frequently used for domain control validation. Use an alias instead if necessary." 400, s)
  else
    match validate_password pw with
    | some m => (MResult.raised m, s)
    | none =>
      let privList :=
        if pyStrip privs = "" then []
        else (splitCh '\n' privs.data).map (fun p => (⟨p⟩ : String))
      match privList.findSome? validate_privilege with
      | some (m, n) => (MResult.clientError m n, s)
      | none =>
        let pwHashed := env.hashPassword pw
        if s.users.any (fun u => u.email == email) then
          (MResult.clientError "User already exists." 400, s)
        else
          let s₁ := { s with users := s.users
              ++ [⟨email, pwHashed, String.intercalate "\n" privList⟩] }
          match env.listMailboxes email with
          | Except.error e =>
            -- rollback: DELETE FROM users WHERE email=?
            (MResult.clientError ("Failed to initialize the user: " ++ e) 400, s)
          | Except.ok _existing =>
            -- folder creation only touches the external mailbox store
            let (report, s₂) := kick env s₁ (some "mail user added")
            (MResult.ok report, s₂)

/-- `set_mail_password`: validate (raising on failure), hash, update; the
`UPDATE`'s rowcount must be 1. -/
def set_mail_password (env : Env) (email pw : String) (s : State) :
    MResult String × State :=
  match validate_password pw with
  | some m => (MResult.raised m, s)
  | none =>
    let pwHashed := env.hashPassword pw
    if (s.users.filter (fun u => u.email == email)).length = 1 then
      let updated := s.users.map
        (fun u => if u.email == email then { u with password := pwHashed } else u)
      (MResult.ok "OK", { s with users := updated })
    else
      (MResult.clientError ("That's not a user (" ++ email ++ ").") 400, s)

/-- `remove_mail_user`: delete (rowcount must be 1), then `kick`. -/
def remove_mail_user (env : Env) (email : String) (s : State) :
    MResult String × State :=
  if (s.users.filter (fun u => u.email == email)).length = 1 then
    let s₁ := { s with users := s.users.filter (fun u => !(u.email == email)) }
    let (report, s₂) := kick env s₁ (some "mail user removed")
    (MResult.ok report, s₂)
  else
    (MResult.clientError ("That's not a user (" ++ email ++ ").") 400, s)

/-! ### Directory Reader: the domain-grouped alias view -/

/-- One entry of `get_mail_aliases_ex`'s result. -/
structure AliasEntry where
  source : String
  source_display : String
  destination : List String
  required : Bool
deriving DecidableEq, Repr

/-- One domain group of `get_mail_aliases_ex`'s result. -/
structure AliasGroup where
  domain : String
  aliases : List AliasEntry
deriving DecidableEq, Repr

/-- The sort key `lambda alias : (alias["required"], alias["source"])` of
the source, as a relation: tuples compare componentwise with
`False < True` on the Boolean. -/
def aliasLEb (a b : AliasEntry) : Bool :=
  if a.required = b.required then charsLEb a.source.data b.source.data
  else !a.required

/-- Propositional form of `aliasLEb`, for `List.Sorted`. -/
def aliasRel (a b : AliasEntry) : Prop := aliasLEb a b = true

instance : DecidableRel aliasRel := fun a b => by
  unfold aliasRel; infer_instance

instance : IsTotal AliasEntry aliasRel := by
  constructor
  intro a b
  unfold aliasRel aliasLEb
  by_cases h : a.required = b.required
  · rcases charsLEb_total a.source.data b.source.data with hc | hc
    · left; simp [h, hc]
    · right; simp [h.symm, hc]
  · rcases Bool.eq_false_or_eq_true a.required with ha | ha
    · have hb : b.required = false := by
        rcases Bool.eq_false_or_eq_true b.required with hb | hb
        · exact absurd (ha.trans hb.symm) h
        · exact hb
      right
      have h' : ¬ b.required = a.required := fun he => h he.symm
      rw [if_neg h', hb]
      rfl
    · left
      rw [if_neg h, ha]
      rfl

instance : IsTrans AliasEntry aliasRel := by
  constructor
  intro a b c hab hbc
  unfold aliasRel aliasLEb at hab hbc ⊢
  by_cases h1 : a.required = b.required
  · by_cases h2 : b.required = c.required
    · rw [if_pos h1] at hab
      rw [if_pos h2] at hbc
      rw [if_pos (h1.trans h2)]
      exact charsLEb_trans _ _ _ hab hbc
    · rw [if_neg h2] at hbc
      rw [if_neg (h1 ▸ h2)]
      exact h1 ▸ hbc
  · rw [if_neg h1] at hab
    have ha : a.required = false := by
      cases ha : a.required
      · rfl
      · rw [ha] at hab; exact absurd hab (by simp)
    have hb : b.required = true := by
      cases hb : b.required
      · exact absurd (ha ▸ hb ▸ rfl) h1
      · rfl
    by_cases h2 : b.required = c.required
    · have : a.required ≠ c.required := fun he => h1 (he.trans h2.symm)
      rw [if_neg this, ha]
      rfl
    · rw [if_neg h2, hb] at hbc
      exact absurd hbc (by simp)

/-- Modelled from the spec: `utils.sort_domains` (the `utils` module is
not part of this repository) orders domain names with the primary
hostname first, then lexicographically. -/
def domainLEb (env : Env) (a b : String) : Bool :=
  if (a == env.primaryHostname) = (b == env.primaryHostname) then
    charsLEb a.data b.data
  else a == env.primaryHostname

/-- Add one alias entry to its domain group, preserving first-occurrence
group order (Python dict insertion order). -/
def addAliasToGroups (groups : List AliasGroup) (domain : String)
    (entry : AliasEntry) : List AliasGroup :=
  if groups.any (fun g => g.domain == domain) then
    groups.map (fun g =>
      if g.domain == domain then { g with aliases := g.aliases ++ [entry] }
      else g)
  else groups ++ [{ domain := domain, aliases := [entry] }]

/-- `get_mail_aliases_ex`: the domain-grouped alias view.  `none` models
the raise when `get_domain` cannot decode a stored domain for display.
Each group's entries are finally sorted by
`(alias["required"], alias["source"])`. -/
def get_mail_aliases_ex (env : Env) (s : State) : Option (List AliasGroup) := do
  let required_aliases := get_required_aliases env s
  let groups ← (get_mail_aliases env s).foldlM
    (fun (groups : List AliasGroup) p => do
      let domain ← get_domain env p.1 true
      let entry : AliasEntry :=
        { source := p.1
          source_display := prettify_idn_email_address env p.1
          destination := (splitCh ',' p.2.data).map
            (fun d => prettify_idn_email_address env (pyStrip (⟨d⟩ : String)))
          required := required_aliases.contains p.1 }
      pure (addAliasToGroups groups domain entry))
    []
  let sortedGroups :=
    List.insertionSort (fun g h => domainLEb env g.domain h.domain = true) groups
  pure (sortedGroups.map
    (fun g => { g with aliases := List.insertionSort aliasRel g.aliases }))

/-! ### Lemmas about `splitEmail` -/

theorem data_append_eq (l d : String) :
    (l ++ "@" ++ d).data = l.data ++ '@' :: d.data := by
  rw [string_append_data, string_append_data]
  simp

theorem splitEmail_append (l d : String) (hl : '@' ∉ l.data)
    (hd : '@' ∉ d.data) : splitEmail (l ++ "@" ++ d) = some (l, d) := by
  unfold splitEmail
  rw [data_append_eq, splitCh_append_cons _ hl, splitCh_of_not_mem hd]

theorem splitEmail_eq_some {s : String} {l d : String}
    (h : splitEmail s = some (l, d)) :
    s = l ++ "@" ++ d ∧ '@' ∉ l.data ∧ '@' ∉ d.data := by
  unfold splitEmail at h
  cases hs : splitCh '@' s.data with
  | nil => exact absurd hs (splitCh_ne_nil _ _)
  | cons a t =>
    rw [hs] at h
    cases t with
    | nil => simp at h
    | cons b t₂ =>
      cases t₂ with
      | nil =>
        simp only [Option.some.injEq, Prod.mk.injEq] at h
        have hjoin := joinCh_splitCh '@' s.data
        rw [hs] at hjoin
        have ha : a ∈ splitCh '@' s.data := hs ▸ List.mem_cons_self a _
        have hb : b ∈ splitCh '@' s.data :=
          hs ▸ List.mem_cons_of_mem _ (List.mem_cons_self b _)
        have hna := not_mem_of_mem_splitCh ha
        have hnb := not_mem_of_mem_splitCh hb
        have hdata : s.data = a ++ '@' :: b := by
          rw [← hjoin]; rfl
        refine ⟨?_, ?_, ?_⟩
        · apply string_eq_of_data
          rw [hdata, data_append_eq, ← h.1, ← h.2]
        · rw [← h.1]; exact hna
        · rw [← h.2]; exact hnb
      | cons c t₃ => simp at h

theorem splitEmail_eq_none {s : String} (h : s.data.count '@' ≠ 1) :
    splitEmail s = none := by
  unfold splitEmail
  cases hs : splitCh '@' s.data with
  | nil => exact absurd hs (splitCh_ne_nil _ _)
  | cons a t =>
    have hlen := length_splitCh '@' s.data
    rw [hs] at hlen
    cases t with
    | nil => rfl
    | cons b t₂ =>
      cases t₂ with
      | nil =>
        exfalso
        apply h
        simp at hlen
        omega
      | cons c t₃ => rfl

/-! ### Claim C10: totality of the address normalizer -/

/-- C10.  `sanitize_idn_email_address` (normalize) and
`prettify_idn_email_address` (prettify) are total Lean functions on
arbitrary strings (so the embedded operations never raise): whenever the
`local@domain` split fails (the input does not contain exactly one `@`),
or the IDNA encode fails, or the ASCII re-encode / IDNA decode fails, the
input string is returned unchanged. -/
theorem sanitize_prettify_total (env : Env) (email : String) :
    (email.data.count '@' ≠ 1 →
      sanitize_idn_email_address env email = email
      ∧ prettify_idn_email_address env email = email)
    ∧ (∀ l d, splitEmail email = some (l, d) →
        (env.encodeIdna d = none → sanitize_idn_email_address env email = email)
        ∧ (¬ d.data.all (fun c => c.toNat < 128) = true ∨ env.decodeIdna d = none →
            prettify_idn_email_address env email = email)) := by
  constructor
  · intro hcount
    have hnone := splitEmail_eq_none hcount
    unfold sanitize_idn_email_address prettify_idn_email_address
    rw [hnone]
    exact ⟨rfl, rfl⟩
  · intro l d hsplit
    constructor
    · intro henc
      unfold sanitize_idn_email_address
      simp only [hsplit, henc]
    · intro hfail
      unfold prettify_idn_email_address
      simp only [hsplit]
      rcases hfail with hascii | hdec
      · rw [if_neg (fun hc => hascii hc)]
      · by_cases hascii : d.data.all (fun c => c.toNat < 128) = true
        · rw [if_pos hascii, hdec]
        · rw [if_neg hascii]

/-- Witness for C10 at the concrete inputs `"a@b@c"` (two `@`s) and a
codec that fails on the domain `"bad"`. -/
theorem sanitize_prettify_total_witness :
    sanitize_idn_email_address
        { primaryHostname := "box.tld", encodeIdna := fun _ => none,
          decodeIdna := fun _ => none, dnsUpdateResult := "",
          webUpdateResult := "", hashPassword := fun p => p,
          listMailboxes := fun _ => Except.ok [] } "a@b@c" = "a@b@c"
    ∧ sanitize_idn_email_address
        { primaryHostname := "box.tld", encodeIdna := fun _ => none,
          decodeIdna := fun _ => none, dnsUpdateResult := "",
          webUpdateResult := "", hashPassword := fun p => p,
          listMailboxes := fun _ => Except.ok [] } "a@bad" = "a@bad" := by
  constructor
  · exact (sanitize_prettify_total _ "a@b@c").1 (by decide) |>.1
  · exact ((sanitize_prettify_total _ "a@bad").2 "a" "bad" (by decide)).1 rfl

/-! ### Claim C8: the IDNA round trip -/

/-- C8.  For an address `l@d` (unique `@`): when the codec encodes `d` to
`e` and decodes `e` back to `d` (the meaning of "the domain is
representable in the ASCII-compatible encoding" for a valid
Unicode-domain address), `prettify (normalize (l@d)) = l@d`; and when the
encode fails, `normalize` returns the address unchanged, and so does
`prettify` whenever its own ASCII re-encode or IDNA decode of `d` fails
(in particular whenever `d` is not pure ASCII). -/
theorem idn_roundtrip (env : Env) (l d e : String)
    (hl : '@' ∉ l.data) (hd : '@' ∉ d.data) :
    (env.encodeIdna d = some e → '@' ∉ e.data →
      e.data.all (fun c => c.toNat < 128) = true → env.decodeIdna e = some d →
      prettify_idn_email_address env
        (sanitize_idn_email_address env (l ++ "@" ++ d)) = l ++ "@" ++ d)
    ∧ (env.encodeIdna d = none →
        sanitize_idn_email_address env (l ++ "@" ++ d) = l ++ "@" ++ d
        ∧ ((¬ d.data.all (fun c => c.toNat < 128) = true ∨ env.decodeIdna d = none) →
            prettify_idn_email_address env (l ++ "@" ++ d) = l ++ "@" ++ d)) := by
  have hsplit := splitEmail_append l d hl hd
  constructor
  · intro henc hea heascii hdec
    have h1 : sanitize_idn_email_address env (l ++ "@" ++ d) = l ++ "@" ++ e := by
      unfold sanitize_idn_email_address
      simp only [hsplit, henc]
    rw [h1]
    unfold prettify_idn_email_address
    simp only [splitEmail_append l e hl hea, if_pos heascii, hdec]
  · intro henc
    have h1 : sanitize_idn_email_address env (l ++ "@" ++ d) = l ++ "@" ++ d := by
      unfold sanitize_idn_email_address
      simp only [hsplit, henc]
    refine ⟨h1, fun hfail => ?_⟩
    exact ((sanitize_prettify_total env (l ++ "@" ++ d)).2 l d hsplit).2 hfail

/-- Witness for C8: a codec behaving like CPython's IDNA on the concrete
pair `user@box.tld` (ASCII domains are fixed points). -/
theorem idn_roundtrip_witness :
    prettify_idn_email_address
      { primaryHostname := "box.tld",
        encodeIdna := fun s => if asciiDomainB s then some s else none,
        decodeIdna := fun s => if asciiDomainB s then some s else none,
        dnsUpdateResult := "", webUpdateResult := "",
        hashPassword := fun p => p, listMailboxes := fun _ => Except.ok [] }
      (sanitize_idn_email_address
        { primaryHostname := "box.tld",
          encodeIdna := fun s => if asciiDomainB s then some s else none,
          decodeIdna := fun s => if asciiDomainB s then some s else none,
          dnsUpdateResult := "", webUpdateResult := "",
          hashPassword := fun p => p, listMailboxes := fun _ => Except.ok [] }
        ("user" ++ "@" ++ "box.tld")) = "user" ++ "@" ++ "box.tld" := by
  exact (idn_roundtrip _ "user" "box.tld" "box.tld" (by decide) (by decide)).1
    (by decide) (by decide) (by decide) (by decide)

/-! ### Concrete evaluation fixtures

A concrete environment whose IDNA codec behaves like CPython's on the
data the directory actually stores: lowercase ASCII domains are fixed
points of both encode and decode, anything else fails.  Used to
instantiate theorems at concrete inputs. -/

def envW : Env :=
  { primaryHostname := "box.tld"
    encodeIdna := fun d => if asciiDomainB d then some d else none
    decodeIdna := fun d => if asciiDomainB d then some d else none
    dnsUpdateResult := "dns-updated\n"
    webUpdateResult := ""
    hashPassword := fun pw => "SHA512-CRYPT-OF-" ++ pw
    listMailboxes := fun _ => Except.ok [] }

/-- An empty directory. -/
def stateEmpty : State := { users := [], aliases := [] }

/-- A directory with a single ordinary account on the primary hostname. -/
def stateOneUser : State :=
  { users := [⟨"u@box.tld", "h", ""⟩], aliases := [] }

/-! ### Claim C4: how validation failures are reported -/

/-- C4 counterexample.  The claim says the mutation operations never let
an expected validation failure escape as a raised exception; but an empty
password makes `add_mail_user` propagate `validate_password`'s
`ValueError` (modelled by the `MResult.raised` constructor), and a
3-character password does the same in `set_mail_password`. -/
theorem add_mail_user_raises_on_invalid_password_cex :
    add_mail_user envW "u2@box.tld" "" "" stateEmpty
      = (MResult.raised "No password provided.", stateEmpty)
    ∧ set_mail_password envW "u@box.tld" "ab" stateOneUser
      = (MResult.raised "Passwords must be at least four characters.", stateOneUser) := by
  constructor <;> decide

/-- C4 as amended.  Address-validation failures are reported as structured
`(reason, 400)` client errors, but a password failing `validate_password`
(empty/whitespace-only, containing whitespace, or shorter than four
characters) is raised as a `ValueError` that escapes both `add_mail_user`
(once the address checks pass, so that control reaches the password
check) and `set_mail_password`, leaving the state unchanged. -/
theorem password_validation_raises (env : Env) (s : State)
    (email pw privs m : String)
    (h1 : pyStrip email ≠ "")
    (h2 : validate_email email = true)
    (h3 : validate_email email .user = true)
    (h4 : is_dcv_address email = false ∨ (get_mail_users env s).length = 0)
    (hpw : validate_password pw = some m) :
    add_mail_user env email pw privs s = (MResult.raised m, s)
    ∧ set_mail_password env email pw s = (MResult.raised m, s)
    ∧ (∀ e₂, validate_email e₂ = false → pyStrip e₂ ≠ "" →
        add_mail_user env e₂ pw privs s
          = (MResult.clientError "Invalid email address." 400, s)) := by
  refine ⟨?_, ?_, ?_⟩
  · unfold add_mail_user
    rw [if_neg h1]
    rcases h4 with h4 | h4
    · simp [h2, h3, h4, hpw]
    · simp [h2, h3, h4, hpw]
  · unfold set_mail_password
    rw [hpw]
  · intro e₂ he₂ hne
    unfold add_mail_user
    rw [if_neg hne]
    simp [he₂]

/-- Witness for C4's amended theorem at `email = "u2@box.tld"`,
`pw = ""`. -/
theorem password_validation_raises_witness :
    add_mail_user envW "u2@box.tld" "" "xx" stateEmpty
      = (MResult.raised "No password provided.", stateEmpty) :=
  (password_validation_raises envW stateEmpty "u2@box.tld" "" "xx"
    "No password provided." (by decide) (by decide) (by decide)
    (Or.inl (by decide)) (by decide)).1

/-! ### Claim C5: empty parsed destination list (code bug) -/

/-- C5.  With `source = "sales@x.tld"` and `destination = ","` the parsed
destination list is empty, yet the operation does not return the
"No destination email address(es) provided." error - the source checks
`len(destination) == 0` (the original string) instead of `len(dests)` -
and an alias row with an empty destination field is stored. -/
theorem add_mail_alias_empty_destination_bug :
    (add_mail_alias envW "sales@x.tld" "," false stateEmpty).1
        ≠ MResult.clientError "No destination email address(es) provided." 400
    ∧ parseDestEntries (pyStrip ",") = []
    ∧ ("sales@x.tld", "")
        ∈ (add_mail_alias envW "sales@x.tld" "," false stateEmpty).2.aliases := by
  refine ⟨?_, ?_, ?_⟩ <;> decide

/-! ### Claim C6: ordering of aliases inside a domain group -/

/-- The ordering the claim asserts inside each domain group: every
required alias comes before every non-required one (pairwise, a later
required entry forces the earlier entry to be required too). -/
def requiredFirst (g : AliasGroup) : Prop :=
  List.Pairwise (fun a b : AliasEntry => b.required = true → a.required = true)
    g.aliases

instance : DecidablePred requiredFirst := fun g => by
  unfold requiredFirst; infer_instance

/-- The concrete directory for the C6 counterexample: domain `x.tld` has
a required `postmaster@x.tld` alias and an optional `aaa@x.tld` alias. -/
def stateC6 : State :=
  { users := [⟨"u@x.tld", "h", ""⟩]
    aliases := [("postmaster@x.tld", "administrator@box.tld"),
                ("aaa@x.tld", "u@x.tld")] }

/-- C6 counterexample.  In `get_mail_aliases_ex`'s output the `x.tld`
group lists the optional `aaa@x.tld` before the required
`postmaster@x.tld`: the sort key is `(required, source)` with
`False < True`, so required aliases come last, not first as claimed. -/
theorem get_mail_aliases_ex_order_cex :
    ∃ gs, get_mail_aliases_ex envW stateC6 = some gs
      ∧ ¬ (∀ g ∈ gs, requiredFirst g) := by
  refine ⟨(get_mail_aliases_ex envW stateC6).getD [], ?_, ?_⟩ <;> decide

/-- C6 as amended.  Within every domain group the aliases are sorted by
the key `(required, source)` - `aliasRel` - so aliases with
`required = False` sort before those with `required = True`, and entries
with equal required-ness are ordered lexicographically by source
address. -/
theorem get_mail_aliases_ex_sorted (env : Env) (s : State)
    (gs : List AliasGroup) (h : get_mail_aliases_ex env s = some gs) :
    ∀ g ∈ gs, List.Pairwise aliasRel g.aliases := by
  intro g hg
  unfold get_mail_aliases_ex at h
  rcases Option.bind_eq_some.mp h with ⟨groups, _hfold, hmap⟩
  simp only [Option.pure_def, Option.some.injEq] at hmap
  rw [← hmap] at hg
  rcases List.mem_map.mp hg with ⟨g₀, _hg₀, hge⟩
  rw [← hge]
  exact List.sorted_insertionSort aliasRel g₀.aliases

/-- The single group produced by `get_mail_aliases_ex` on the C6
counterexample directory. -/
def groupC6 : AliasGroup :=
  { domain := "x.tld",
    aliases := [{ source := "aaa@x.tld", source_display := "aaa@x.tld",
                  destination := ["u@x.tld"], required := false },
                { source := "postmaster@x.tld",
                  source_display := "postmaster@x.tld",
                  destination := ["administrator@box.tld"],
                  required := true }] }

/-- Witness for C6's amended theorem at the counterexample directory:
its one group's alias list is sorted by `(required, source)`. -/
theorem get_mail_aliases_ex_sorted_witness :
    List.Pairwise aliasRel groupC6.aliases :=
  get_mail_aliases_ex_sorted envW stateC6 [groupC6] (by decide)
    groupC6 (by decide)

/-! ### Membership lemmas for the directory readers -/

theorem mk_data (s : String) : (⟨s.data⟩ : String) = s := by cases s; rfl

theorem mem_sort_email {a : String} {l : List String} :
    a ∈ sort_email_addresses l ↔ a ∈ l :=
  (List.perm_insertionSort emailOrder l).mem_iff

theorem get_mail_users_mem (env : Env) (s : State) (e : String) :
    e ∈ get_mail_users env s ↔ e ∈ s.users.map (·.email) :=
  mem_sort_email

theorem length_get_mail_users (env : Env) (s : State) :
    (get_mail_users env s).length = s.users.length := by
  unfold get_mail_users sort_email_addresses
  rw [(List.perm_insertionSort emailOrder _).length_eq, List.length_map]

theorem filter_fst_eq_of_nodup {l : List (String × String)} {src t : String}
    (hnd : (l.map Prod.fst).Nodup) (hmem : (src, t) ∈ l) :
    l.filter (fun a => a.1 == src) = [(src, t)] := by
  induction l with
  | nil => cases hmem
  | cons p rest ih =>
    rw [List.map_cons, List.nodup_cons] at hnd
    rcases List.mem_cons.mp hmem with he | hmem₂
    · rw [← he] at hnd ⊢
      rw [List.filter_cons]
      have hhead : ((src, t).1 == src) = true := by simp
      rw [if_pos hhead]
      have : rest.filter (fun a => a.1 == src) = [] := by
        apply List.filter_eq_nil_iff.mpr
        intro a ha hq
        apply hnd.1
        have heq : a.1 = src := by simpa using hq
        have hmm : a.1 ∈ rest.map Prod.fst := List.mem_map_of_mem Prod.fst ha
        rw [heq] at hmm
        exact hmm
      rw [this]
    · have hp1 : p.1 ≠ src := by
        intro he1
        apply hnd.1
        have : src ∈ rest.map Prod.fst := List.mem_map_of_mem Prod.fst hmem₂
        exact he1 ▸ this
      rw [List.filter_cons, if_neg (by simpa using hp1)]
      exact ih hnd.2 hmem₂

theorem lastDestOf_eq {s : State} {src t : String}
    (hnd : (s.aliases.map Prod.fst).Nodup) (hmem : (src, t) ∈ s.aliases) :
    lastDestOf s src = t := by
  unfold lastDestOf
  rw [filter_fst_eq_of_nodup hnd hmem]
  rfl

theorem get_mail_aliases_mem (env : Env) (s : State)
    (hnd : (s.aliases.map Prod.fst).Nodup) (p : String × String) :
    p ∈ get_mail_aliases env s ↔ p ∈ s.aliases := by
  unfold get_mail_aliases
  constructor
  · intro hp
    rcases List.mem_map.mp hp with ⟨src, hsrc, he⟩
    have hsrc₂ : src ∈ s.aliases.map Prod.fst :=
      List.mem_dedup.mp (mem_sort_email.mp hsrc)
    rcases List.mem_map.mp hsrc₂ with ⟨a, ha, hae⟩
    have hmem : (src, a.2) ∈ s.aliases := by
      have : a = (src, a.2) := by
        rw [← hae]
      exact this ▸ ha
    rw [← he, lastDestOf_eq hnd hmem]
    exact hmem
  · intro hp
    apply List.mem_map.mpr
    refine ⟨p.1, ?_, ?_⟩
    · exact mem_sort_email.mpr (List.mem_dedup.mpr (List.mem_map_of_mem Prod.fst hp))
    · have hp' : (p.1, p.2) ∈ s.aliases := hp
      rw [lastDestOf_eq hnd hp']

theorem get_mail_aliases_fst_nodup (env : Env) (s : State) :
    ((get_mail_aliases env s).map Prod.fst).Nodup := by
  unfold get_mail_aliases
  rw [List.map_map]
  have : (Prod.fst ∘ fun src => (src, lastDestOf s src)) = id := by
    funext src; rfl
  rw [this, List.map_id]
  exact ((List.perm_insertionSort emailOrder _).nodup_iff).mpr
    (List.nodup_dedup _)

theorem get_domain_false_getD (env : Env) (addr : String) :
    (get_domain env addr false).getD "" = domainOfD addr := by
  unfold get_domain domainOfD
  cases splitFirstCh '@' addr.data <;> rfl

theorem domainOfD_append {l : String} (d : String) (hl : '@' ∉ l.data) :
    domainOfD (l ++ "@" ++ d) = d := by
  unfold domainOfD
  rw [data_append_eq, splitFirstCh_append_cons _ hl]

theorem get_mail_domains_mem (env : Env) (s : State)
    (f : String × String → Bool) (hnd : (s.aliases.map Prod.fst).Nodup)
    (d : String) :
    d ∈ get_mail_domains env s f ↔
      (∃ u ∈ s.users, domainOfD u.email = d)
      ∨ (∃ a ∈ s.aliases, f a = true ∧ domainOfD a.1 = d) := by
  unfold get_mail_domains
  rw [List.mem_dedup, List.mem_append]
  constructor
  · rintro (h | h)
    · left
      rcases List.mem_map.mp h with ⟨addr, haddr, he⟩
      rcases List.mem_map.mp ((get_mail_users_mem env s addr).mp haddr)
        with ⟨u, hu, hue⟩
      exact ⟨u, hu, by rw [hue, ← get_domain_false_getD env addr, he]⟩
    · right
      rcases List.mem_map.mp h with ⟨a, ha, he⟩
      rcases List.mem_filter.mp ha with ⟨ha₁, ha₂⟩
      exact ⟨a, (get_mail_aliases_mem env s hnd a).mp ha₁, ha₂,
        by rw [← get_domain_false_getD env a.1, he]⟩
  · rintro (⟨u, hu, hd⟩ | ⟨a, ha, hf, hd⟩)
    · left
      apply List.mem_map.mpr
      refine ⟨u.email, (get_mail_users_mem env s u.email).mpr
        (List.mem_map_of_mem _ hu), ?_⟩
      rw [get_domain_false_getD, hd]
    · right
      apply List.mem_map.mpr
      refine ⟨a, List.mem_filter.mpr
        ⟨(get_mail_aliases_mem env s hnd a).mpr ha, hf⟩, ?_⟩
      rw [get_domain_false_getD, hd]

/-! ### Claim C3: the required-alias set -/

/-- C3 as amended.  The required-alias set is
`{administrator@ph, hostmaster@ph} ∪ {postmaster@d, admin@d}` over the
domains `d` that carry a user address or an alias source passing
`requiredAliasFilter` - i.e. every alias source starting with
`postmaster@`, `admin@` or `@` is excluded from making its domain served,
regardless of the alias's destination (so a manually repointed
`postmaster@`/`admin@` alias does not keep its domain served; a user
account at such an address does). -/
theorem get_required_aliases_mem (env : Env) (s : State)
    (hnd : (s.aliases.map Prod.fst).Nodup) (x : String) :
    x ∈ get_required_aliases env s ↔
      x = get_system_administrator env
      ∨ x = "hostmaster@" ++ env.primaryHostname
      ∨ ∃ d, ((∃ u ∈ s.users, domainOfD u.email = d)
              ∨ (∃ a ∈ s.aliases, requiredAliasFilter a = true ∧ domainOfD a.1 = d))
          ∧ (x = "postmaster@" ++ d ∨ x = "admin@" ++ d) := by
  unfold get_required_aliases
  rw [List.mem_dedup, List.mem_append]
  constructor
  · rintro (h | h)
    · rcases List.mem_cons.mp h with h₁ | h₁
      · exact Or.inl h₁
      · rcases List.mem_cons.mp h₁ with h₂ | h₂
        · exact Or.inr (Or.inl h₂)
        · cases h₂
    · right; right
      rcases List.mem_flatMap.mp h with ⟨d, hd, hx⟩
      refine ⟨d, (get_mail_domains_mem env s _ hnd d).mp hd, ?_⟩
      rcases List.mem_cons.mp hx with h₁ | h₁
      · exact Or.inl h₁
      · rcases List.mem_cons.mp h₁ with h₂ | h₂
        · exact Or.inr h₂
        · cases h₂
  · rintro (h | h | ⟨d, hd, hx⟩)
    · exact Or.inl (h ▸ List.mem_cons_self _ _)
    · exact Or.inl (h ▸ List.mem_cons_of_mem _ (List.mem_cons_self _ _))
    · refine Or.inr (List.mem_flatMap.mpr ⟨d,
        (get_mail_domains_mem env s _ hnd d).mpr hd, ?_⟩)
      rcases hx with h₁ | h₁
      · exact h₁ ▸ List.mem_cons_self _ _
      · exact h₁ ▸ List.mem_cons_of_mem _ (List.mem_cons_self _ _)

/-- Witness for C3's amended theorem: in a directory whose only account is
`u@box.tld`, `postmaster@box.tld` is required. -/
theorem get_required_aliases_mem_witness :
    "postmaster@box.tld" ∈ get_required_aliases envW stateOneUser :=
  (get_required_aliases_mem envW stateOneUser (by decide) "postmaster@box.tld").mpr
    (Or.inr (Or.inr ⟨"box.tld",
      Or.inl ⟨⟨"u@box.tld", "h", ""⟩, by decide, by decide⟩,
      Or.inl (by decide)⟩))

/-- Modelled from the claim's words (C3): the required-alias set where a
domain counts as served when it carries a user address or any alias
source other than an auto-generated administrative alias "with no other
purpose" - a `postmaster@`/`admin@` source whose destination is still the
administrator; repointed administrative aliases and catch-alls keep their
domain served. -/
def requiredAliasFilter_spec (env : Env) (a : String × String) : Bool :=
  !((pyStartsWith a.1 "postmaster@" || pyStartsWith a.1 "admin@")
      && a.2 == get_system_administrator env)

/-- Modelled from the claim's words (C3): see `requiredAliasFilter_spec`. -/
def get_required_aliases_spec (env : Env) (s : State) : List String :=
  ([get_system_administrator env, "hostmaster@" ++ env.primaryHostname]
    ++ (get_mail_domains env s (requiredAliasFilter_spec env)).flatMap
        (fun domain => ["postmaster@" ++ domain, "admin@" ++ domain])).dedup

/-- The C3 counterexample directory: the only address on `foo.tld` is a
manually repointed `postmaster@foo.tld` alias. -/
def stateC3 : State :=
  { users := [], aliases := [("postmaster@foo.tld", "user@other.tld")] }

/-- C3 counterexample.  Per the claim, the repointed `postmaster@foo.tld`
alias keeps `foo.tld` served, so `postmaster@foo.tld` would be required;
the code's filter drops every `postmaster@` source regardless of its
destination, so the computed required set does not contain it. -/
theorem get_required_aliases_cex :
    "postmaster@foo.tld" ∈ get_required_aliases_spec envW stateC3
    ∧ "postmaster@foo.tld" ∉ get_required_aliases envW stateC3 := by
  constructor <;> decide

/-! ### `kick` never touches the users table -/

theorem add_mail_alias_core_users (env : Env) (src dst : String)
    (upd : Bool) (s : State) :
    (add_mail_alias_core env src dst upd s).2.users = s.users := by
  unfold add_mail_alias_core
  dsimp only
  repeat' split
  all_goals rfl

theorem remove_mail_alias_core_users (env : Env) (src : String) (s : State) :
    (remove_mail_alias_core env src s).2.users = s.users := by
  unfold remove_mail_alias_core
  dsimp only
  split <;> rfl

theorem kickActions_users (env : Env) (s : State) :
    (kickActions env s).2.users = s.users := by
  unfold kickActions
  have h1 : ∀ (L : List String) (acc : List String × State),
      ((L.foldl (kickAddStep env (get_mail_users env s)
        (get_mail_aliases env s)) acc).2).users = acc.2.users := by
    intro L
    induction L with
    | nil => intro acc; rfl
    | cons r rest ih =>
      intro acc
      rw [List.foldl_cons, ih]
      unfold kickAddStep
      split
      · rfl
      · split
        · rfl
        · exact add_mail_alias_core_users env r _ false acc.2
  have h2 : ∀ (L : List (String × String)) (acc : List String × State),
      ((L.foldl (kickRemoveStep env (get_required_aliases env s))
        acc).2).users = acc.2.users := by
    intro L
    induction L with
    | nil => intro acc; rfl
    | cons p rest ih =>
      intro acc
      rw [List.foldl_cons, ih]
      unfold kickRemoveStep
      split
      · exact remove_mail_alias_core_users env p.1 acc.2
      · rfl
  rw [h2, h1]

theorem kick_users (env : Env) (s : State) (r : Option String) :
    (kick env s r).2.users = s.users := by
  unfold kick
  exact kickActions_users env s

/-! ### Claim C7: the domain-control policy on account creation -/

/-- C7.  Creating a user at a domain-control address with all other
preconditions met (address non-empty and valid in both modes, password
valid, no privileges requested, no duplicate account, mailbox listing
succeeding): when the directory has no users at all, creation succeeds
and the account is appended; as soon as at least one user exists, it is
rejected with the domain-control policy client error and the state is
unchanged. -/
theorem add_mail_user_dcv_policy (env : Env) (s : State) (email pw : String)
    (h1 : pyStrip email ≠ "")
    (h2 : validate_email email = true)
    (h3 : validate_email email .user = true)
    (h4 : is_dcv_address email = true)
    (h5 : validate_password pw = none)
    (h6 : s.users.any (fun u => u.email == email) = false)
    (h7 : ∃ folders, env.listMailboxes email = Except.ok folders) :
    (s.users = [] →
      ∃ report s', add_mail_user env email pw "" s = (MResult.ok report, s')
        ∧ s'.users.map (·.email) = s.users.map (·.email) ++ [email])
    ∧ (s.users ≠ [] →
        add_mail_user env email pw "" s
          = (MResult.clientError "You may not make a user account for that address because it is frequently used for domain control validation. Use an alias instead if necessary." 400, s)) := by
  constructor
  · intro hs0
    obtain ⟨folders, h7⟩ := h7
    have hlen : (get_mail_users env s).length = 0 := by
      rw [length_get_mail_users, hs0]; rfl
    have hguard : (is_dcv_address email
        && decide ((get_mail_users env s).length > 0)) = false := by
      rw [hlen]
      simp
    have hstrip : pyStrip "" = "" := rfl
    unfold add_mail_user
    rw [if_neg h1]
    simp only [h2, h3, hguard, h5, h6, h7, hstrip, Bool.not_true,
      Bool.false_eq_true, if_false, if_true, List.findSome?_nil, reduceIte]
    refine ⟨(kick env { s with users := s.users
        ++ [⟨email, env.hashPassword pw, String.intercalate "\n" []⟩] }
        (some "mail user added")).1,
      (kick env { s with users := s.users
        ++ [⟨email, env.hashPassword pw, String.intercalate "\n" []⟩] }
        (some "mail user added")).2, ?_, ?_⟩
    · rfl
    · rw [kick_users]
      simp
  · intro hsne
    have hlen : 0 < (get_mail_users env s).length := by
      rw [length_get_mail_users]
      cases hu : s.users with
      | nil => exact absurd hu hsne
      | cons a t => simp
    have hguard : (is_dcv_address email
        && decide ((get_mail_users env s).length > 0)) = true := by
      rw [h4]
      simpa using hlen
    unfold add_mail_user
    rw [if_neg h1]
    simp only [h2, h3, hguard, Bool.not_true, Bool.false_eq_true, if_false,
      if_true, reduceIte]

/-- Witness for C7 at `admin@example.com`, exercising both the bootstrap
branch (empty directory) and the rejection branch (one existing user). -/
theorem add_mail_user_dcv_policy_witness :
    (∃ report s', add_mail_user envW "admin@example.com" "goodpw" "" stateEmpty
        = (MResult.ok report, s')
      ∧ s'.users.map (·.email) = stateEmpty.users.map (·.email) ++ ["admin@example.com"])
    ∧ add_mail_user envW "admin@example.com" "goodpw" "" stateOneUser
        = (MResult.clientError "You may not make a user account for that address because it is frequently used for domain control validation. Use an alias instead if necessary." 400, stateOneUser) := by
  constructor
  · exact (add_mail_user_dcv_policy envW stateEmpty "admin@example.com" "goodpw"
      (by decide) (by decide) (by decide) (by decide) (by decide) (by decide)
      ⟨[], rfl⟩).1 rfl
  · exact (add_mail_user_dcv_policy envW stateOneUser "admin@example.com" "goodpw"
      (by decide) (by decide) (by decide) (by decide) (by decide) (by decide)
      ⟨[], rfl⟩).2 (by decide)

/-! ### Claim C9: domain-control sources may only forward to
domain-control addresses or admins -/

theorem ne_of_data_head {a b : String} (h : a.data.head? ≠ b.data.head?) :
    a ≠ b := fun he => h (he ▸ rfl)

theorem already_exists_ne_dcvDestMsg (x : String) :
    ("Alias already exists (" ++ x ++ ").", (400 : Nat)) ≠ (dcvDestMsg, 400) := by
  intro he
  have h1 : ("Alias already exists (" ++ x ++ ").") = dcvDestMsg :=
    congrArg Prod.fst he
  have h2 : ("Alias already exists (" ++ x ++ ").").data.head? = some 'A' := by
    rw [string_append_data, string_append_data]
    rfl
  have h3 : dcvDestMsg.data.head? = some 'T' := rfl
  rw [h1, h3] at h2
  exact absurd h2 (by decide)

/-- A Boolean helper: the domain-control guard of `processDests` is false
unless the destination is neither a domain-control address nor an
admin. -/
theorem dcv_guard_false {p q : Bool} (h : ¬ (p = false ∧ q = false)) :
    (true && !p && !q) = false := by
  rcases Bool.eq_false_or_eq_true p with hp | hp
  · simp [hp]
  · rcases Bool.eq_false_or_eq_true q with hq | hq
    · simp [hp, hq]
    · exact absurd ⟨hp, hq⟩ h

/-- For a domain-control source, `processDests` returns the
policy-violation error exactly when some entry is neither a
domain-control address nor an admin account (given that every entry
passes the full-address validation); otherwise it returns the sanitized
entry list. -/
theorem processDests_spec (env : Env) (s : State) (entries : List String)
    (hval : ∀ e ∈ entries, validate_email (sanitize_idn_email_address env e) = true) :
    ((∃ e ∈ entries, is_dcv_address (sanitize_idn_email_address env e) = false
        ∧ destIsAdmin s (sanitize_idn_email_address env e) = false) →
      processDests env s true entries = Sum.inl (dcvDestMsg, 400))
    ∧ (¬ (∃ e ∈ entries, is_dcv_address (sanitize_idn_email_address env e) = false
        ∧ destIsAdmin s (sanitize_idn_email_address env e) = false) →
      ∃ dests, processDests env s true entries = Sum.inr dests) := by
  induction entries with
  | nil =>
    constructor
    · rintro ⟨e, he, _⟩
      cases he
    · intro _
      exact ⟨[], rfl⟩
  | cons e rest ih =>
    have hve : validate_email (sanitize_idn_email_address env e) = true :=
      hval e (List.mem_cons_self e rest)
    have ihv : ∀ e₂ ∈ rest, validate_email (sanitize_idn_email_address env e₂) = true :=
      fun e₂ he₂ => hval e₂ (List.mem_cons_of_mem _ he₂)
    obtain ⟨ihA, ihB⟩ := ih ihv
    constructor
    · rintro ⟨e₀, he₀, hbad⟩
      rcases List.mem_cons.mp he₀ with he₁ | he₂
      · subst he₁
        unfold processDests
        simp only [hve, Bool.not_true, Bool.false_eq_true, if_false,
          hbad.1, hbad.2, Bool.true_and, Bool.not_false, Bool.and_true, if_true,
          reduceIte]
      · by_cases hhead : is_dcv_address (sanitize_idn_email_address env e) = false
            ∧ destIsAdmin s (sanitize_idn_email_address env e) = false
        · unfold processDests
          simp only [hve, Bool.not_true, Bool.false_eq_true, if_false,
            hhead.1, hhead.2, Bool.true_and, Bool.not_false, Bool.and_true,
            if_true, reduceIte]
        · have hrec := ihA ⟨e₀, he₂, hbad⟩
          unfold processDests
          have hcond := dcv_guard_false hhead
          simp only [hve, Bool.not_true, Bool.false_eq_true, if_false, hrec,
            hcond]
    · intro hnone
      have hheadok : ¬ (is_dcv_address (sanitize_idn_email_address env e) = false
          ∧ destIsAdmin s (sanitize_idn_email_address env e) = false) :=
        fun hh => hnone ⟨e, List.mem_cons_self e rest, hh⟩
      have hrestok : ¬ (∃ e₂ ∈ rest,
          is_dcv_address (sanitize_idn_email_address env e₂) = false
          ∧ destIsAdmin s (sanitize_idn_email_address env e₂) = false) :=
        fun ⟨e₂, he₂, hh⟩ => hnone ⟨e₂, List.mem_cons_of_mem _ he₂, hh⟩
      obtain ⟨dests, hdests⟩ := ihB hrestok
      unfold processDests
      have hcond := dcv_guard_false hheadok
      simp only [hve, Bool.not_true, Bool.false_eq_true, if_false, hcond, hdests]
      exact ⟨sanitize_idn_email_address env e :: dests, by simp⟩

theorem add_mail_alias_core_dcv_offender (env : Env) (s : State)
    (source destination : String) (upd : Bool)
    (h1 : pyStrip (pyLower (sanitize_idn_email_address env source)) ≠ "")
    (h2 : validate_email (pyStrip (pyLower (sanitize_idn_email_address env source))) .alias = true)
    (h3 : is_dcv_address (pyStrip (pyLower (sanitize_idn_email_address env source))) = true)
    (hval : ∀ e ∈ parseDestEntries (pyStrip destination),
        validate_email (sanitize_idn_email_address env e) = true)
    (hex : ∃ e ∈ parseDestEntries (pyStrip destination),
        is_dcv_address (sanitize_idn_email_address env e) = false
        ∧ destIsAdmin s (sanitize_idn_email_address env e) = false) :
    add_mail_alias_core env source destination upd s
      = (Sum.inl (dcvDestMsg, 400), s) := by
  have hproc := (processDests_spec env s _ hval).1 hex
  unfold add_mail_alias_core
  dsimp only
  rw [if_neg h1]
  simp only [h2, h3, Bool.not_true, Bool.and_false, Bool.false_eq_true,
    if_false, hproc]

theorem add_mail_alias_core_dcv_no_offender (env : Env) (s : State)
    (source destination : String) (upd : Bool)
    (h1 : pyStrip (pyLower (sanitize_idn_email_address env source)) ≠ "")
    (h2 : validate_email (pyStrip (pyLower (sanitize_idn_email_address env source))) .alias = true)
    (h3 : is_dcv_address (pyStrip (pyLower (sanitize_idn_email_address env source))) = true)
    (hval : ∀ e ∈ parseDestEntries (pyStrip destination),
        validate_email (sanitize_idn_email_address env e) = true)
    (hnone : ¬ ∃ e ∈ parseDestEntries (pyStrip destination),
        is_dcv_address (sanitize_idn_email_address env e) = false
        ∧ destIsAdmin s (sanitize_idn_email_address env e) = false) :
    (add_mail_alias_core env source destination upd s).1
      ≠ Sum.inl (dcvDestMsg, 400) := by
  obtain ⟨dests, hproc⟩ := (processDests_spec env s _ hval).2 hnone
  unfold add_mail_alias_core
  dsimp only
  rw [if_neg h1]
  simp only [h2, h3, Bool.not_true, Bool.and_false, Bool.false_eq_true,
    if_false, hproc]
  split
  · intro he
    simp only [Prod.fst, Sum.inl.injEq] at he
    exact absurd he (by decide)
  · split
    · split
      · intro he
        simp only [Prod.fst, Sum.inl.injEq] at he
        exact already_exists_ne_dcvDestMsg _ he
      · simp
    · simp

/-- C9.  When the (sanitized, lowercased, stripped) source of an
`add_mail_alias` call is a domain-control address and every parsed
destination entry is a syntactically valid address, the call returns the
domain-control policy-violation client error exactly when some parsed
destination is neither a domain-control address itself nor the address
of an account holding the `admin` privilege; and whenever it does so, the
directory is left unchanged. -/
theorem add_mail_alias_dcv_destination_policy (env : Env) (s : State)
    (source destination : String) (upd : Bool)
    (h1 : pyStrip (pyLower (sanitize_idn_email_address env source)) ≠ "")
    (h2 : validate_email (pyStrip (pyLower (sanitize_idn_email_address env source))) .alias = true)
    (h3 : is_dcv_address (pyStrip (pyLower (sanitize_idn_email_address env source))) = true)
    (hval : ∀ e ∈ parseDestEntries (pyStrip destination),
        validate_email (sanitize_idn_email_address env e) = true) :
    ((add_mail_alias env source destination upd s).1
        = MResult.clientError dcvDestMsg 400
      ↔ ∃ e ∈ parseDestEntries (pyStrip destination),
          is_dcv_address (sanitize_idn_email_address env e) = false
          ∧ destIsAdmin s (sanitize_idn_email_address env e) = false)
    ∧ ((add_mail_alias env source destination upd s).1
        = MResult.clientError dcvDestMsg 400 →
      (add_mail_alias env source destination upd s).2 = s) := by
  by_cases hex : ∃ e ∈ parseDestEntries (pyStrip destination),
      is_dcv_address (sanitize_idn_email_address env e) = false
      ∧ destIsAdmin s (sanitize_idn_email_address env e) = false
  · have hcore := add_mail_alias_core_dcv_offender env s source destination upd
      h1 h2 h3 hval hex
    unfold add_mail_alias
    rw [hcore]
    exact ⟨⟨fun _ => hex, fun _ => rfl⟩, fun _ => rfl⟩
  · have hcore := add_mail_alias_core_dcv_no_offender env s source destination upd
      h1 h2 h3 hval hex
    unfold add_mail_alias
    constructor
    · constructor
      · intro hres
        exfalso
        apply hcore
        rcases hc : add_mail_alias_core env source destination upd s
          with ⟨r, s'⟩
        rw [hc] at hres
        cases r with
        | inl p =>
          obtain ⟨m, n⟩ := p
          simp only [MResult.clientError.injEq] at hres
          simp only [Prod.fst, hres.1, hres.2]
        | inr status => simp at hres
      · intro hres
        exact absurd hres hex
    · intro hres
      exfalso
      apply hcore
      rcases hc : add_mail_alias_core env source destination upd s
        with ⟨r, s'⟩
      rw [hc] at hres
      cases r with
      | inl p =>
        obtain ⟨m, n⟩ := p
        simp only [MResult.clientError.injEq] at hres
        simp only [Prod.fst, hres.1, hres.2]
      | inr status => simp at hres

/-- Witness for C9: `postmaster@dcv-test.tld` forwarding to a plain
(non-admin, non-domain-control) address is rejected with the policy
error, and the directory is unchanged. -/
theorem add_mail_alias_dcv_destination_policy_witness :
    (add_mail_alias envW "postmaster@dcv-test.tld" "random@other.tld" false
        stateOneUser).1 = MResult.clientError dcvDestMsg 400
    ∧ (add_mail_alias envW "postmaster@dcv-test.tld" "random@other.tld" false
        stateOneUser).2 = stateOneUser := by
  have h := add_mail_alias_dcv_destination_policy envW stateOneUser
    "postmaster@dcv-test.tld" "random@other.tld" false
    (by decide) (by decide) (by decide) (by decide)
  have hres := h.1.mpr ⟨"random@other.tld", by decide, by decide, by decide⟩
  exact ⟨hres, h.2 hres⟩

/-! ### Well-formedness of stored directory state

Addresses reach the store only through the validated mutation paths:
user emails pass `validate_email` in both plain and user mode, alias
sources pass alias mode and are lowercased, and sources are unique
(primary key).  The reconciliation theorems assume exactly this. -/

/-- No uppercase ASCII letter (stored addresses are lowercase). -/
def notUpperB (c : Char) : Bool := !isUpperAlpha c

/-- A well-formed stored user row. -/
def wfUserB (u : MailUser) : Bool :=
  validate_email u.email && validate_email u.email .user

/-- A well-formed stored alias source. -/
def wfSourceB (src : String) : Bool :=
  validate_email src .alias && src.data.all notUpperB

/-- The store invariant. -/
def WFState (s : State) : Prop :=
  (∀ u ∈ s.users, wfUserB u = true)
  ∧ (∀ a ∈ s.aliases, wfSourceB a.1 = true)
  ∧ (s.aliases.map Prod.fst).Nodup

instance (s : State) : Decidable (WFState s) := by
  unfold WFState; infer_instance

theorem validate_email_inv {e : String} {mode : EmailMode}
    (h : validate_email e mode = true) :
    ∃ l d, splitEmail e = some (l, d)
      ∧ l.data.all localChar = true ∧ wfDomainB d = true := by
  unfold validate_email at h
  cases hs : splitEmail e with
  | none => rw [hs] at h; simp at h
  | some p =>
    obtain ⟨l, d⟩ := p
    rw [hs] at h
    simp only [Bool.and_eq_true] at h
    exact ⟨l, d, rfl, h.1.1.2, h.1.2⟩

theorem mem_joinCh {c x : Char} {parts : List (List Char)}
    (h : x ∈ joinCh c parts) : x = c ∨ ∃ p ∈ parts, x ∈ p := by
  induction parts with
  | nil => cases h
  | cons p rest ih =>
    cases rest with
    | nil =>
      exact Or.inr ⟨p, List.mem_cons_self p [], h⟩
    | cons q t =>
      rcases List.mem_append.mp h with h₁ | h₂
      · exact Or.inr ⟨p, List.mem_cons_self p _, h₁⟩
      · rcases List.mem_cons.mp h₂ with h₃ | h₄
        · exact Or.inl h₃
        · rcases ih h₄ with h₅ | ⟨p₂, hp₂, hx⟩
          · exact Or.inl h₅
          · exact Or.inr ⟨p₂, List.mem_cons_of_mem _ hp₂, hx⟩

theorem asciiDomain_chars {d : String} (h : asciiDomainB d = true) :
    ∀ x ∈ d.data, (asciiDomainChar x || x = '.') = true := by
  intro x hx
  unfold asciiDomainB at h
  simp only [Bool.and_eq_true, List.all_eq_true] at h
  have hx₂ : x ∈ joinCh '.' (splitCh '.' d.data) :=
    (joinCh_splitCh '.' d.data).symm ▸ hx
  rcases mem_joinCh hx₂ with h₁ | ⟨p, hp, hxp⟩
  · simp [h₁]
  · have := h.2 p hp
    simp only [Bool.and_eq_true, List.all_eq_true] at this
    simp [this.2 x hxp]

theorem asciiDomainChar_props {x : Char}
    (h : (asciiDomainChar x || x = '.') = true) :
    x ≠ '@' ∧ pyIsSpace x = false ∧ ¬ (65 ≤ x.toNat ∧ x.toNat ≤ 90)
      ∧ x ≠ '\n' ∧ x ≠ ',' := by
  refine ⟨?_, ?_, ?_, ?_, ?_⟩
  · intro he; subst he; exact absurd h (by decide)
  · by_contra hc
    simp only [Bool.not_eq_false] at hc
    unfold pyIsSpace at hc
    simp only [Bool.or_eq_true, decide_eq_true_eq] at hc
    rcases hc with ((((he | he) | he) | he) | he) | he <;>
      (subst he; exact absurd h (by decide))
  · rintro ⟨h₁, h₂⟩
    unfold asciiDomainChar isLowerAlpha isDigitCh at h
    simp only [Bool.or_eq_true, Bool.and_eq_true, decide_eq_true_eq,
      decide_eq_true_eq] at h
    rcases h with ((⟨ha, hb⟩ | ⟨ha, hb⟩) | he) | he
    · omega
    · omega
    · subst he
      revert h₁ h₂
      decide
    · subst he
      revert h₁ h₂
      decide
  · intro he; subst he; exact absurd h (by decide)
  · intro he; subst he; exact absurd h (by decide)

theorem asciiDomain_no_at {d : String} (h : asciiDomainB d = true) :
    '@' ∉ d.data :=
  fun hm => (asciiDomainChar_props (asciiDomain_chars h '@' hm)).1 rfl

theorem asciiDomain_no_space {d : String} (h : asciiDomainB d = true) :
    ∀ x ∈ d.data, pyIsSpace x = false :=
  fun x hx => (asciiDomainChar_props (asciiDomain_chars h x hx)).2.1

theorem asciiDomain_no_upper {d : String} (h : asciiDomainB d = true) :
    ∀ x ∈ d.data, ¬ (65 ≤ x.toNat ∧ x.toNat ≤ 90) :=
  fun x hx => (asciiDomainChar_props (asciiDomain_chars h x hx)).2.2.1

theorem asciiDomain_no_newline {d : String} (h : asciiDomainB d = true) :
    '\n' ∉ d.data :=
  fun hm => (asciiDomainChar_props (asciiDomain_chars h '\n' hm)).2.2.2.1 rfl

theorem asciiDomain_no_comma {d : String} (h : asciiDomainB d = true) :
    ',' ∉ d.data :=
  fun hm => (asciiDomainChar_props (asciiDomain_chars h ',' hm)).2.2.2.2 rfl

theorem asciiDomain_wfDomain {d : String} (h : asciiDomainB d = true) :
    wfDomainB d = true := by
  unfold asciiDomainB at h
  unfold wfDomainB
  simp only [Bool.and_eq_true, List.all_eq_true] at h ⊢
  refine ⟨h.1, fun lab hlab => ?_⟩
  have := h.2 lab hlab
  simp only [Bool.and_eq_true, List.all_eq_true] at this ⊢
  refine ⟨this.1, fun x hx => ?_⟩
  have hc := this.2 x hx
  unfold asciiDomainChar at hc
  unfold domainChar
  simp only [Bool.or_eq_true] at hc ⊢
  rcases hc with (h₁ | h₂) | h₃
  · exact Or.inl (Or.inl (Or.inl h₁))
  · exact Or.inl (Or.inr h₂)
  · exact Or.inr h₃

theorem asciiDomain_nonempty {d : String} (h : asciiDomainB d = true) :
    d.data ≠ [] := by
  unfold asciiDomainB at h
  simp only [Bool.and_eq_true] at h
  intro he
  rw [he] at h
  exact absurd h.1 (by decide)

/-! ### Shape of the required aliases -/

/-- The local parts a required alias can have. -/
def reqLocal (lp : String) : Prop :=
  lp = "postmaster" ∨ lp = "admin" ∨ lp = "administrator" ∨ lp = "hostmaster"

/-- Every required alias is `lp@d` for a reserved local part and a stored
(lowercase-ASCII) domain. -/
def GoodReq (r : String) : Prop :=
  ∃ lp d, reqLocal lp ∧ asciiDomainB d = true ∧ r = lp ++ "@" ++ d

theorem reqLocal_facts {lp : String} (h : reqLocal lp) :
    '@' ∉ lp.data ∧ lp.data.all localChar = true ∧ lp.data ≠ []
    ∧ (∀ c ∈ lp.data, pyIsSpace c = false)
    ∧ (∀ c ∈ lp.data, ¬ (65 ≤ c.toNat ∧ c.toNat ≤ 90)) := by
  rcases h with h | h | h | h <;> subst h <;>
    exact ⟨by decide, by decide, by decide, by decide, by decide⟩

theorem mem_joinCh_of {c x : Char} {p : List Char} {parts : List (List Char)}
    (hx : x ∈ p) (hp : p ∈ parts) : x ∈ joinCh c parts := by
  induction parts with
  | nil => cases hp
  | cons q rest ih =>
    rcases List.mem_cons.mp hp with he | hp₂
    · subst he
      cases rest with
      | nil => exact hx
      | cons q₂ t => exact List.mem_append.mpr (Or.inl hx)
    · cases rest with
      | nil => cases hp₂
      | cons q₂ t =>
        exact List.mem_append.mpr
          (Or.inr (List.mem_cons_of_mem _ (ih hp₂)))

theorem mem_of_label_mem {d : String} {lab : List Char} {x : Char}
    (hlab : lab ∈ splitCh '.' d.data) (hx : x ∈ lab) : x ∈ d.data := by
  have := mem_joinCh_of (c := '.') hx hlab
  rwa [joinCh_splitCh] at this

theorem asciiDomainB_of_wf_no_upper {d : String} (h1 : wfDomainB d = true)
    (h2 : ∀ c ∈ d.data, notUpperB c = true) : asciiDomainB d = true := by
  unfold wfDomainB at h1
  unfold asciiDomainB
  simp only [Bool.and_eq_true, List.all_eq_true] at h1 ⊢
  refine ⟨h1.1, fun lab hlab => ?_⟩
  have := h1.2 lab hlab
  simp only [Bool.and_eq_true, List.all_eq_true] at this ⊢
  refine ⟨this.1, fun x hx => ?_⟩
  have hc := this.2 x hx
  have hnu := h2 x (mem_of_label_mem hlab hx)
  unfold domainChar at hc
  unfold asciiDomainChar
  unfold notUpperB isUpperAlpha at hnu
  simp only [Bool.or_eq_true] at hc ⊢
  rcases hc with ((h₁ | h₂) | h₃) | h₄
  · exact Or.inl (Or.inl h₁)
  · exfalso
    simp only [Bool.not_eq_true', Bool.and_eq_false_iff,
      decide_eq_false_iff_not] at hnu
    unfold isUpperAlpha at h₂
    simp only [Bool.and_eq_true, decide_eq_true_eq] at h₂
    rcases hnu with hnu | hnu
    · exact hnu h₂.1
    · exact hnu h₂.2
  · exact Or.inl (Or.inr h₃)
  · exact Or.inr h₄

theorem user_chars_not_upper {e : String}
    (h : validate_email e .user = true) :
    ∀ c ∈ e.data, notUpperB c = true := by
  intro c hc
  unfold validate_email at h
  simp only [Bool.and_eq_true] at h
  have := h.2
  simp only [Bool.and_eq_true, List.all_eq_true] at this
  have hch := this.2 c hc
  simp only [Bool.or_eq_true, decide_eq_true_eq] at hch
  unfold notUpperB isUpperAlpha
  simp only [Bool.not_eq_true', Bool.and_eq_false_iff,
    decide_eq_false_iff_not]
  rcases hch with ((((h₁ | h₁) | h₁) | h₁) | h₁) | h₁
  · subst h₁; left; decide
  · subst h₁; left; decide
  · unfold isLowerAlpha at h₁
    simp only [Bool.and_eq_true, decide_eq_true_eq] at h₁
    right; omega
  · unfold isDigitCh at h₁
    simp only [Bool.and_eq_true, decide_eq_true_eq] at h₁
    left; omega
  · subst h₁; right; decide
  · subst h₁; left; decide

/-- Under the store invariant, every domain computed by
`get_mail_domains` is a stored lowercase-ASCII domain. -/
theorem get_mail_domains_ascii (env : Env) (s : State)
    (f : String × String → Bool) (hwf : WFState s) :
    ∀ d ∈ get_mail_domains env s f, asciiDomainB d = true := by
  intro d hd
  rcases (get_mail_domains_mem env s f hwf.2.2 d).mp hd with
    ⟨u, hu, hdom⟩ | ⟨a, ha, _, hdom⟩
  · have hu₂ := hwf.1 u hu
    unfold wfUserB at hu₂
    simp only [Bool.and_eq_true] at hu₂
    rcases validate_email_inv hu₂.1 with ⟨l, dd, hsplit, _, hwfd⟩
    rcases splitEmail_eq_some hsplit with ⟨he, hl, _⟩
    have hdd : domainOfD u.email = dd := by
      rw [he]; exact domainOfD_append dd hl
    rw [← hdom, hdd]
    apply asciiDomainB_of_wf_no_upper hwfd
    intro c hc
    apply user_chars_not_upper hu₂.2
    rw [he, data_append_eq]
    exact List.mem_append.mpr (Or.inr (List.mem_cons_of_mem _ hc))
  · have ha₂ := hwf.2.1 a ha
    unfold wfSourceB at ha₂
    simp only [Bool.and_eq_true, List.all_eq_true] at ha₂
    rcases validate_email_inv ha₂.1 with ⟨l, dd, hsplit, _, hwfd⟩
    rcases splitEmail_eq_some hsplit with ⟨he, hl, _⟩
    have hdd : domainOfD a.1 = dd := by
      rw [he]; exact domainOfD_append dd hl
    rw [← hdom, hdd]
    apply asciiDomainB_of_wf_no_upper hwfd
    intro c hc
    apply ha₂.2
    rw [he, data_append_eq]
    exact List.mem_append.mpr (Or.inr (List.mem_cons_of_mem _ hc))

theorem postmaster_split (d : String) :
    "postmaster@" ++ d = "postmaster" ++ "@" ++ d := by
  apply string_eq_of_data
  rw [string_append_data, data_append_eq]
  rfl

theorem admin_split (d : String) :
    "admin@" ++ d = "admin" ++ "@" ++ d := by
  apply string_eq_of_data
  rw [string_append_data, data_append_eq]
  rfl

theorem hostmaster_split (d : String) :
    "hostmaster@" ++ d = "hostmaster" ++ "@" ++ d := by
  apply string_eq_of_data
  rw [string_append_data, data_append_eq]
  rfl

theorem administrator_split (env : Env) :
    get_system_administrator env
      = "administrator" ++ "@" ++ env.primaryHostname := by
  apply string_eq_of_data
  unfold get_system_administrator
  rw [string_append_data, data_append_eq]
  rfl

/-- Under the store invariant, every element of the required-alias list
has the reserved shape. -/
theorem goodReq_of_required (env : Env) (s : State) (hwf : WFState s)
    (hph : asciiDomainB env.primaryHostname = true) :
    ∀ r ∈ get_required_aliases env s, GoodReq r := by
  intro r hr
  unfold get_required_aliases at hr
  rw [List.mem_dedup, List.mem_append] at hr
  rcases hr with hr | hr
  · rcases List.mem_cons.mp hr with h₁ | h₁
    · exact ⟨"administrator", env.primaryHostname, Or.inr (Or.inr (Or.inl rfl)),
        hph, by rw [h₁, administrator_split]⟩
    · rcases List.mem_cons.mp h₁ with h₂ | h₂
      · exact ⟨"hostmaster", env.primaryHostname, Or.inr (Or.inr (Or.inr rfl)),
          hph, by rw [h₂, hostmaster_split]⟩
      · cases h₂
  · rcases List.mem_flatMap.mp hr with ⟨d, hd, hx⟩
    have hda := get_mail_domains_ascii env s _ hwf d hd
    rcases List.mem_cons.mp hx with h₁ | h₁
    · exact ⟨"postmaster", d, Or.inl rfl, hda, by rw [h₁, postmaster_split]⟩
    · rcases List.mem_cons.mp h₁ with h₂ | h₂
      · exact ⟨"admin", d, Or.inr (Or.inl rfl), hda, by rw [h₂, admin_split]⟩
      · cases h₂

/-! ### Behaviour of `add_mail_alias_core` on required aliases -/

theorem shaped_sanitize (env : Env) {lp d : String} (hat : '@' ∉ lp.data)
    (hd : asciiDomainB d = true) (henc : env.encodeIdna d = some d) :
    sanitize_idn_email_address env (lp ++ "@" ++ d) = lp ++ "@" ++ d := by
  unfold sanitize_idn_email_address
  simp only [splitEmail_append lp d hat (asciiDomain_no_at hd), henc]

theorem shaped_pyLower {lp d : String}
    (hnu : ∀ c ∈ lp.data, ¬ (65 ≤ c.toNat ∧ c.toNat ≤ 90))
    (hd : asciiDomainB d = true) :
    pyLower (lp ++ "@" ++ d) = lp ++ "@" ++ d := by
  apply string_eq_of_data
  show (lp ++ "@" ++ d).data.map pyLowerChar = (lp ++ "@" ++ d).data
  apply map_pyLowerChar_of_no_upper
  intro x hx
  rw [data_append_eq] at hx
  rcases List.mem_append.mp hx with h₁ | h₂
  · exact hnu x h₁
  · rcases List.mem_cons.mp h₂ with h₃ | h₄
    · subst h₃; decide
    · exact asciiDomain_no_upper hd x h₄

theorem shaped_pyStrip {lp d : String}
    (hsp : ∀ c ∈ lp.data, pyIsSpace c = false)
    (hd : asciiDomainB d = true) :
    pyStrip (lp ++ "@" ++ d) = lp ++ "@" ++ d := by
  apply string_eq_of_data
  show stripChars (lp ++ "@" ++ d).data = (lp ++ "@" ++ d).data
  apply stripChars_of_no_space
  intro x hx
  rw [data_append_eq] at hx
  rcases List.mem_append.mp hx with h₁ | h₂
  · exact hsp x h₁
  · rcases List.mem_cons.mp h₂ with h₃ | h₄
    · subst h₃; decide
    · exact asciiDomain_no_space hd x h₄

theorem shaped_ne_empty {lp d : String} (hne : lp.data ≠ []) :
    lp ++ "@" ++ d ≠ "" := by
  intro he
  apply hne
  have := congrArg String.data he
  rw [data_append_eq] at this
  cases hl : lp.data with
  | nil => rfl
  | cons x xs =>
    rw [hl] at this
    simp at this

theorem shaped_validate_alias {lp d : String}
    (hat : '@' ∉ lp.data) (hloc : lp.data.all localChar = true)
    (hd : asciiDomainB d = true) :
    validate_email (lp ++ "@" ++ d) .alias = true := by
  unfold validate_email
  rw [splitEmail_append lp d hat (asciiDomain_no_at hd)]
  simp [hloc, asciiDomain_wfDomain hd]

theorem shaped_validate_plain {lp d : String}
    (hat : '@' ∉ lp.data) (hloc : lp.data.all localChar = true)
    (hne : lp.data ≠ []) (hd : asciiDomainB d = true) :
    validate_email (lp ++ "@" ++ d) = true := by
  unfold validate_email
  rw [splitEmail_append lp d hat (asciiDomain_no_at hd)]
  simp [hloc, asciiDomain_wfDomain hd, hne]

theorem pyStartsWith_shape (lp d : String) :
    pyStartsWith (lp ++ "@" ++ d) (lp ++ "@") = true := by
  unfold pyStartsWith
  rw [data_append_eq, string_append_data]
  have h2 : lp.data ++ '@' :: d.data = (lp.data ++ "@".data) ++ d.data := by
    simp
  rw [h2]
  exact isPrefixB_append_self _ _

theorem shaped_is_dcv {lp d : String} (hlp : reqLocal lp)
    (hd : asciiDomainB d = true) :
    is_dcv_address (lp ++ "@" ++ d) = true := by
  obtain ⟨hat, hloc, hne, hsp, hnu⟩ := reqLocal_facts hlp
  unfold is_dcv_address
  rw [shaped_pyLower hnu hd]
  apply List.any_eq_true.mpr
  rcases hlp with h | h | h | h <;> subst h
  · exact ⟨"postmaster", by decide,
      by rw [Bool.or_eq_true]; exact Or.inl (pyStartsWith_shape _ d)⟩
  · exact ⟨"admin", by decide,
      by rw [Bool.or_eq_true]; exact Or.inl (pyStartsWith_shape _ d)⟩
  · exact ⟨"administrator", by decide,
      by rw [Bool.or_eq_true]; exact Or.inl (pyStartsWith_shape _ d)⟩
  · exact ⟨"hostmaster", by decide,
      by rw [Bool.or_eq_true]; exact Or.inl (pyStartsWith_shape _ d)⟩

theorem adminAddr_goodReq (env : Env)
    (hph : asciiDomainB env.primaryHostname = true) :
    GoodReq (get_system_administrator env) :=
  ⟨"administrator", env.primaryHostname, Or.inr (Or.inr (Or.inl rfl)), hph,
    administrator_split env⟩

theorem administrator_facts :
    '@' ∉ ("administrator" : String).data
    ∧ ("administrator" : String).data.all localChar = true
    ∧ ("administrator" : String).data ≠ []
    ∧ (∀ c ∈ ("administrator" : String).data, pyIsSpace c = false)
    ∧ (∀ c ∈ ("administrator" : String).data, ¬ (65 ≤ c.toNat ∧ c.toNat ≤ 90)) :=
  reqLocal_facts (Or.inr (Or.inr (Or.inl rfl)))

theorem adminAddr_no_newline (env : Env)
    (hph : asciiDomainB env.primaryHostname = true) :
    '\n' ∉ (get_system_administrator env).data := by
  rw [administrator_split, data_append_eq]
  intro hm
  rcases List.mem_append.mp hm with h₁ | h₂
  · revert h₁; decide
  · rcases List.mem_cons.mp h₂ with h₃ | h₄
    · exact absurd h₃ (by decide)
    · exact asciiDomain_no_newline hph h₄

theorem adminAddr_no_comma (env : Env)
    (hph : asciiDomainB env.primaryHostname = true) :
    ',' ∉ (get_system_administrator env).data := by
  rw [administrator_split, data_append_eq]
  intro hm
  rcases List.mem_append.mp hm with h₁ | h₂
  · revert h₁; decide
  · rcases List.mem_cons.mp h₂ with h₃ | h₄
    · exact absurd h₃ (by decide)
    · exact asciiDomain_no_comma hph h₄

theorem adminAddr_pyStrip (env : Env)
    (hph : asciiDomainB env.primaryHostname = true) :
    pyStrip (get_system_administrator env) = get_system_administrator env := by
  rw [administrator_split]
  exact shaped_pyStrip administrator_facts.2.2.2.1 hph

theorem adminAddr_ne_empty (env : Env) :
    get_system_administrator env ≠ "" := by
  rw [administrator_split]
  exact shaped_ne_empty administrator_facts.2.2.1

theorem adminAddr_parse (env : Env)
    (hph : asciiDomainB env.primaryHostname = true) :
    parseDestEntries (get_system_administrator env)
      = [get_system_administrator env] := by
  unfold parseDestEntries
  rw [splitCh_of_not_mem (adminAddr_no_newline env hph)]
  rw [List.flatMap_cons, List.flatMap_nil, List.append_nil]
  rw [splitCh_of_not_mem (adminAddr_no_comma env hph)]
  simp only [List.map_cons, List.map_nil, mk_data, adminAddr_pyStrip env hph]
  rw [List.filter_cons]
  rw [if_pos (decide_eq_true (adminAddr_ne_empty env))]
  rfl

theorem adminAddr_validate_plain (env : Env)
    (hph : asciiDomainB env.primaryHostname = true) :
    validate_email (get_system_administrator env) = true := by
  rw [administrator_split]
  exact shaped_validate_plain administrator_facts.1 administrator_facts.2.1
    administrator_facts.2.2.1 hph

theorem adminAddr_is_dcv (env : Env)
    (hph : asciiDomainB env.primaryHostname = true) :
    is_dcv_address (get_system_administrator env) = true := by
  rw [administrator_split]
  exact shaped_is_dcv (Or.inr (Or.inr (Or.inl rfl))) hph

theorem adminAddr_processDests (env : Env) (s : State)
    (hph : asciiDomainB env.primaryHostname = true)
    (hEnc : ∀ d', asciiDomainB d' = true → env.encodeIdna d' = some d') :
    processDests env s true [get_system_administrator env]
      = Sum.inr [get_system_administrator env] := by
  have hsan : sanitize_idn_email_address env (get_system_administrator env)
      = get_system_administrator env := by
    rw [administrator_split]
    exact shaped_sanitize env administrator_facts.1 hph
      (hEnc env.primaryHostname hph)
  unfold processDests
  simp only [hsan, adminAddr_validate_plain env hph, adminAddr_is_dcv env hph,
    Bool.not_true, Bool.and_false, Bool.false_and, Bool.false_eq_true, if_false,
    reduceIte]
  rw [show processDests env s true [] = Sum.inr [] from rfl]

theorem any_fst_false {l : List (String × String)} {r : String}
    (h : r ∉ l.map Prod.fst) : (l.any (fun a => a.1 == r)) = false := by
  cases ha : l.any (fun a => a.1 == r) with
  | false => rfl
  | true =>
    exfalso
    rcases List.any_eq_true.mp ha with ⟨a, hmem, hq⟩
    apply h
    have : a.1 = r := by simpa using hq
    exact this ▸ List.mem_map_of_mem Prod.fst hmem

theorem intercalate_single (x : String) :
    String.intercalate "," [x] = x := by
  cases x
  rfl

theorem adminAddr_length_pos (env : Env) :
    ¬ (get_system_administrator env).length = 0 := by
  intro he
  apply adminAddr_ne_empty env
  apply string_eq_of_data
  have : (get_system_administrator env).data.length = 0 := he
  cases hd : (get_system_administrator env).data with
  | nil => rfl
  | cons x xs => rw [hd] at this; simp at this

/-- On a required alias `lp@d` not yet present as a source, the internal
`add_mail_alias(..., do_kick=False)` call of `kick` succeeds and appends
the row `(lp@d, administrator@primary-hostname)`. -/
theorem add_core_req (env : Env) (s : State) {lp d : String}
    (hlp : reqLocal lp) (hd : asciiDomainB d = true)
    (hEnc : ∀ d', asciiDomainB d' = true → env.encodeIdna d' = some d')
    (hph : asciiDomainB env.primaryHostname = true)
    (hnotin : (lp ++ "@" ++ d) ∉ s.aliases.map Prod.fst) :
    add_mail_alias_core env (lp ++ "@" ++ d) (get_system_administrator env) false s
      = (Sum.inr "alias added",
         { s with aliases := s.aliases
             ++ [(lp ++ "@" ++ d, get_system_administrator env)] }) := by
  obtain ⟨hat, hloc, hne, hsp, hnu⟩ := reqLocal_facts hlp
  unfold add_mail_alias_core
  dsimp only
  rw [shaped_sanitize env hat hd (hEnc d hd), shaped_pyLower hnu hd,
    shaped_pyStrip hsp hd]
  rw [if_neg (shaped_ne_empty hne)]
  simp only [shaped_validate_alias hat hloc hd, Bool.not_true,
    Bool.false_eq_true, if_false]
  rw [adminAddr_pyStrip env hph]
  simp only [shaped_is_dcv hlp hd, Bool.not_true, Bool.and_false,
    Bool.false_eq_true, if_false]
  rw [adminAddr_parse env hph, adminAddr_processDests env s hph hEnc]
  dsimp only
  rw [if_neg (adminAddr_length_pos env)]
  simp only [any_fst_false hnotin, Bool.false_eq_true, if_false,
    intercalate_single]

/-! ### The two phases of `kick`, characterised -/

/-- Whether `ensure_admin_alias_exists` actually creates an alias for a
required address, given the snapshots. -/
def kickKeepB (existing_users : List String)
    (existing_aliases : List (String × String)) (r : String) : Bool :=
  !(existing_users.contains r)
    && !(existing_aliases.any (fun p => p.1 == r))

theorem wf_source_sanitize (env : Env) {src : String}
    (h : wfSourceB src = true)
    (hEnc : ∀ d', asciiDomainB d' = true → env.encodeIdna d' = some d') :
    sanitize_idn_email_address env src = src := by
  unfold wfSourceB at h
  simp only [Bool.and_eq_true, List.all_eq_true] at h
  rcases validate_email_inv h.1 with ⟨l, d, hsplit, _, hwfd⟩
  rcases splitEmail_eq_some hsplit with ⟨he, _, _⟩
  have hd : asciiDomainB d = true := by
    apply asciiDomainB_of_wf_no_upper hwfd
    intro c hc
    apply h.2
    rw [he, data_append_eq]
    exact List.mem_append.mpr (Or.inr (List.mem_cons_of_mem _ hc))
  unfold sanitize_idn_email_address
  simp only [hsplit, hEnc d hd]
  exact he.symm

theorem remove_core_spec (env : Env) (s : State) {src : String}
    (hsan : sanitize_idn_email_address env src = src)
    (hcount : (s.aliases.filter (fun a => a.1 == src)).length = 1) :
    remove_mail_alias_core env src s
      = (Sum.inr (),
         { s with aliases := s.aliases.filter (fun a => !(a.1 == src)) }) := by
  unfold remove_mail_alias_core
  dsimp only
  rw [hsan, if_pos hcount]

theorem addStep_fold (env : Env) (U : List String)
    (A : List (String × String))
    (hEnc : ∀ d', asciiDomainB d' = true → env.encodeIdna d' = some d')
    (hph : asciiDomainB env.primaryHostname = true) :
    ∀ (R : List String), (∀ r ∈ R, GoodReq r) → R.Nodup →
    ∀ (acts₀ : List String) (st₀ : State),
    (∀ r ∈ R, kickKeepB U A r = true → r ∉ st₀.aliases.map Prod.fst) →
    R.foldl (kickAddStep env U A) (acts₀, st₀)
      = (acts₀ ++ (R.filter (kickKeepB U A)).map
          (fun r => "added alias " ++ r ++ " (=> "
            ++ get_system_administrator env ++ ")\n"),
         { st₀ with aliases := (st₀.aliases
             ++ (R.filter (kickKeepB U A)).map
                 (fun r => (r, get_system_administrator env))) }) := by
  intro R
  induction R with
  | nil =>
    intro _ _ acts₀ st₀ _
    simp
  | cons r R' ih =>
    intro hgood hnd acts₀ st₀ hnotin
    have hgood' : ∀ x ∈ R', GoodReq x :=
      fun x hx => hgood x (List.mem_cons_of_mem _ hx)
    rw [List.nodup_cons] at hnd
    rw [List.foldl_cons]
    by_cases hkeep : kickKeepB U A r = true
    · have hkparts : U.contains r = false
          ∧ (A.any (fun p => p.1 == r)) = false := by
        unfold kickKeepB at hkeep
        simp only [Bool.and_eq_true, Bool.not_eq_true'] at hkeep
        exact hkeep
      obtain ⟨lp, d, hlp, hd, hre⟩ := hgood r (List.mem_cons_self r R')
      have hstep : kickAddStep env U A (acts₀, st₀) r
          = (acts₀ ++ ["added alias " ++ r ++ " (=> "
              ++ get_system_administrator env ++ ")\n"],
             { st₀ with aliases := st₀.aliases
                 ++ [(r, get_system_administrator env)] }) := by
        unfold kickAddStep
        simp only [hkparts.1, hkparts.2, Bool.false_eq_true, if_false]
        have hni : r ∉ st₀.aliases.map Prod.fst :=
          hnotin r (List.mem_cons_self r R') hkeep
        rw [hre] at hni ⊢
        rw [add_core_req env st₀ hlp hd hEnc hph hni]
      rw [hstep]
      have hnotin' : ∀ x ∈ R', kickKeepB U A x = true →
          x ∉ ({ st₀ with aliases := st₀.aliases
              ++ [(r, get_system_administrator env)] } : State).aliases.map Prod.fst := by
        intro x hx hkx
        simp only [List.map_append, List.map_cons, List.map_nil]
        rw [List.mem_append]
        rintro (hmem | hmem)
        · exact hnotin x (List.mem_cons_of_mem _ hx) hkx hmem
        · rcases List.mem_cons.mp hmem with he | he
          · exact hnd.1 (he ▸ hx)
          · cases he
      rw [ih hgood' hnd.2 _ _ hnotin']
      rw [List.filter_cons, if_pos (by simpa using hkeep)]
      simp
    · have hkfalse : kickKeepB U A r = false := by
        rw [Bool.not_eq_true] at hkeep
        exact hkeep
      have hstep : kickAddStep env U A (acts₀, st₀) r = (acts₀, st₀) := by
        unfold kickAddStep
        by_cases hc : U.contains r = true
        · rw [if_pos hc]
        · have hc' : U.contains r = false := by
            rw [Bool.not_eq_true] at hc
            exact hc
          have ha : (A.any (fun p => p.1 == r)) = true := by
            unfold kickKeepB at hkfalse
            rw [hc'] at hkfalse
            simpa using hkfalse
          rw [if_neg hc, if_pos ha]
      rw [hstep]
      rw [ih hgood' hnd.2 _ _
        (fun x hx hkx => hnotin x (List.mem_cons_of_mem _ hx) hkx)]
      rw [List.filter_cons, if_neg (by simp [hkfalse])]

theorem removeStep_fold (env : Env) (required : List String)
    (hEnc : ∀ d', asciiDomainB d' = true → env.encodeIdna d' = some d') :
    ∀ (A : List (String × String)), (A.map Prod.fst).Nodup →
    ∀ (acts₀ : List String) (st₀ : State),
    (∀ p ∈ A, p ∈ st₀.aliases) →
    (st₀.aliases.map Prod.fst).Nodup →
    (∀ p ∈ A, sanitize_idn_email_address env p.1 = p.1) →
    A.foldl (kickRemoveStep env required) (acts₀, st₀)
      = (acts₀ ++ (A.filter (kickRemoveCond env required)).map
          (fun p => "removed alias " ++ p.1 ++ " (was to " ++ p.2
            ++ "; domain no longer used for email)\n"),
         { st₀ with aliases := (st₀.aliases.filter
             (fun a => !(A.any (fun p =>
               kickRemoveCond env required p && p.1 == a.1)))) }) := by
  intro A
  induction A with
  | nil =>
    intro _ acts₀ st₀ _ _ _
    simp
  | cons p A' ih =>
    intro hndA acts₀ st₀ hmem hnd hsan
    rw [List.map_cons, List.nodup_cons] at hndA
    rw [List.foldl_cons]
    by_cases hcond : kickRemoveCond env required p = true
    · have hp : (p.1, p.2) ∈ st₀.aliases := hmem p (List.mem_cons_self p A')
      have hcount : (st₀.aliases.filter (fun a => a.1 == p.1)).length = 1 := by
        rw [filter_fst_eq_of_nodup hnd hp]
        rfl
      have hstep : kickRemoveStep env required (acts₀, st₀) p
          = (acts₀ ++ ["removed alias " ++ p.1 ++ " (was to " ++ p.2
              ++ "; domain no longer used for email)\n"],
             { st₀ with aliases := (st₀.aliases.filter
                 (fun a => !(a.1 == p.1))) }) := by
        unfold kickRemoveStep
        rw [if_pos hcond]
        rw [remove_core_spec env st₀ (hsan p (List.mem_cons_self p A')) hcount]
      rw [hstep]
      have hmem' : ∀ q ∈ A',
          q ∈ (st₀.aliases.filter (fun a => !(a.1 == p.1))) := by
        intro q hq
        apply List.mem_filter.mpr
        refine ⟨hmem q (List.mem_cons_of_mem _ hq), ?_⟩
        have hne : q.1 ≠ p.1 := by
          intro he
          exact hndA.1 (he ▸ List.mem_map_of_mem Prod.fst hq)
        simpa using hne
      have hnd' : ((st₀.aliases.filter
          (fun a => !(a.1 == p.1))).map Prod.fst).Nodup :=
        hnd.sublist ((List.filter_sublist _).map Prod.fst)
      rw [ih hndA.2 _ _ hmem' hnd'
        (fun q hq => hsan q (List.mem_cons_of_mem _ hq))]
      rw [List.filter_cons, if_pos (by simpa using hcond)]
      refine congrArg₂ Prod.mk (by simp) ?_
      rw [List.filter_filter]
      have hcongr : ∀ a ∈ st₀.aliases,
          ((!(A'.any (fun q => kickRemoveCond env required q && q.1 == a.1)))
            && !(a.1 == p.1))
          = !((p :: A').any (fun q =>
              kickRemoveCond env required q && q.1 == a.1)) := by
        intro a _
        simp only [List.any_cons, hcond, Bool.true_and, Bool.not_or]
        by_cases he : a.1 = p.1
        · have hb1 : (a.1 == p.1) = true := by simp [he]
          have hb2 : (p.1 == a.1) = true := by simp [he.symm]
          rw [hb1, hb2]
          simp
        · have he2 : ¬ p.1 = a.1 := fun hh => he hh.symm
          have hb1 : (a.1 == p.1) = false := by simp [he]
          have hb2 : (p.1 == a.1) = false := by simp [he2]
          rw [hb1, hb2]
          simp [Bool.and_comm]
      rw [List.filter_congr hcongr]
    · have hcf : kickRemoveCond env required p = false := by
        rw [Bool.not_eq_true] at hcond
        exact hcond
      have hstep : kickRemoveStep env required (acts₀, st₀) p
          = (acts₀, st₀) := by
        unfold kickRemoveStep
        rw [hcf]
        simp
      rw [hstep]
      rw [ih hndA.2 _ _ (fun q hq => hmem q (List.mem_cons_of_mem _ hq)) hnd
        (fun q hq => hsan q (List.mem_cons_of_mem _ hq))]
      rw [List.filter_cons, if_neg (by simp [hcf])]
      refine congrArg₂ Prod.mk rfl ?_
      have hcongr : ∀ a ∈ st₀.aliases,
          (!(A'.any (fun q => kickRemoveCond env required q && q.1 == a.1)))
          = !((p :: A').any (fun q =>
              kickRemoveCond env required q && q.1 == a.1)) := by
        intro a _
        simp [List.any_cons, hcf]
      rw [List.filter_congr hcongr]

/-! ### The master characterisation of `kickActions` -/

/-- The required aliases `kick` creates in a pass (required and not yet
satisfied by an account or an existing alias). -/
def kickAddedList (env : Env) (s : State) : List String :=
  (get_required_aliases env s).filter
    (kickKeepB (get_mail_users env s) (get_mail_aliases env s))

/-- The alias rows `kick` removes in a pass (stale auto-generated
ones). -/
def kickRemovedList (env : Env) (s : State) : List (String × String) :=
  (get_mail_aliases env s).filter
    (kickRemoveCond env (get_required_aliases env s))

theorem required_nodup (env : Env) (s : State) :
    (get_required_aliases env s).Nodup := by
  unfold get_required_aliases
  exact List.nodup_dedup _

theorem keep_notin (env : Env) (s : State) (hwf : WFState s) :
    ∀ r ∈ get_required_aliases env s,
      kickKeepB (get_mail_users env s) (get_mail_aliases env s) r = true →
      r ∉ s.aliases.map Prod.fst := by
  intro r _ hk hmem
  rcases List.mem_map.mp hmem with ⟨a, ha, hae⟩
  have hmem₂ : a ∈ get_mail_aliases env s :=
    (get_mail_aliases_mem env s hwf.2.2 a).mpr ha
  unfold kickKeepB at hk
  simp only [Bool.and_eq_true, Bool.not_eq_true'] at hk
  have hany : ((get_mail_aliases env s).any (fun p => p.1 == r)) = true :=
    List.any_eq_true.mpr ⟨a, hmem₂, by simp [hae]⟩
  rw [hk.2] at hany
  exact absurd hany (by simp)

/-- `kick`'s action list and state transition in closed form: the added
messages then the removed messages, and the alias table extended with the
created rows and then purged of the rows matching the removal
condition. -/
theorem kickActions_spec (env : Env) (s : State) (hwf : WFState s)
    (hEnc : ∀ d', asciiDomainB d' = true → env.encodeIdna d' = some d')
    (hph : asciiDomainB env.primaryHostname = true) :
    kickActions env s
      = ((kickAddedList env s).map (fun r => "added alias " ++ r ++ " (=> "
            ++ get_system_administrator env ++ ")\n")
          ++ (kickRemovedList env s).map (fun p => "removed alias " ++ p.1
            ++ " (was to " ++ p.2 ++ "; domain no longer used for email)\n"),
         { s with aliases := ((s.aliases ++ (kickAddedList env s).map
               (fun r => (r, get_system_administrator env))).filter
             (fun a => !((get_mail_aliases env s).any (fun p =>
               kickRemoveCond env (get_required_aliases env s) p
                 && p.1 == a.1)))) }) := by
  unfold kickActions
  dsimp only
  rw [addStep_fold env _ _ hEnc hph _ (goodReq_of_required env s hwf hph)
    (required_nodup env s) [] s (keep_notin env s hwf)]
  rw [List.nil_append]
  have hndA := get_mail_aliases_fst_nodup env s
  have hmem₂ : ∀ p ∈ get_mail_aliases env s,
      p ∈ ({ s with aliases := (s.aliases
          ++ ((get_required_aliases env s).filter
            (kickKeepB (get_mail_users env s) (get_mail_aliases env s))).map
              (fun r => (r, get_system_administrator env))) } : State).aliases := by
    intro p hp
    exact List.mem_append.mpr
      (Or.inl ((get_mail_aliases_mem env s hwf.2.2 p).mp hp))
  have hnd₂ : ((( s.aliases
      ++ ((get_required_aliases env s).filter
        (kickKeepB (get_mail_users env s) (get_mail_aliases env s))).map
          (fun r => (r, get_system_administrator env))) : List (String × String)).map
        Prod.fst).Nodup := by
    rw [List.map_append, List.map_map]
    have hid : (Prod.fst ∘ fun r => (r, get_system_administrator env))
        = (id : String → String) := by
      funext r; rfl
    rw [hid, List.map_id]
    apply List.Nodup.append hwf.2.2
      ((required_nodup env s).filter _)
    intro x hx₁ hx₂
    have hkeep : kickKeepB (get_mail_users env s) (get_mail_aliases env s) x
        = true := (List.mem_filter.mp hx₂).2
    exact keep_notin env s hwf x (List.mem_filter.mp hx₂).1 hkeep hx₁
  have hsan₂ : ∀ p ∈ get_mail_aliases env s,
      sanitize_idn_email_address env p.1 = p.1 := by
    intro p hp
    exact wf_source_sanitize env
      (hwf.2.1 p ((get_mail_aliases_mem env s hwf.2.2 p).mp hp)) hEnc
  rw [removeStep_fold env (get_required_aliases env s) hEnc
    (get_mail_aliases env s) hndA _ _ hmem₂ hnd₂ hsan₂]
  rfl

/-! ### Claim C2: exactly which aliases `kick` removes -/

theorem contains_iff_mem {l : List String} {x : String} :
    l.contains x = true ↔ x ∈ l := List.elem_iff

theorem kickRemoveCond_iff (env : Env) (required : List String)
    (src tgt : String) :
    kickRemoveCond env required (src, tgt) = true ↔
      ((∃ dom, splitEmail src = some ("postmaster", dom)
          ∨ splitEmail src = some ("admin", dom))
       ∧ src ∉ required ∧ tgt = get_system_administrator env) := by
  unfold kickRemoveCond
  cases hs : splitEmail src with
  | none =>
    simp only [Bool.false_eq_true, false_iff]
    rintro ⟨⟨dom, h | h⟩, _, _⟩ <;> cases h
  | some q =>
    obtain ⟨user, dom⟩ := q
    simp only [Bool.and_eq_true, Bool.or_eq_true, decide_eq_true_eq,
      Bool.not_eq_true', beq_iff_eq]
    constructor
    · rintro ⟨⟨hu, hcont⟩, htgt⟩
      refine ⟨⟨dom, ?_⟩, ?_, htgt⟩
      · rcases hu with hu | hu
        · left; rw [hu]
        · right; rw [hu]
      · intro hmemr
        rw [contains_iff_mem.mpr hmemr] at hcont
        cases hcont
    · rintro ⟨⟨dom₂, hd⟩, hnot, htgt⟩
      refine ⟨⟨?_, ?_⟩, htgt⟩
      · rcases hd with hd | hd <;>
          simp only [Option.some.injEq, Prod.mk.injEq] at hd
        · exact Or.inl hd.1
        · exact Or.inr hd.1
      · cases hc : required.contains src with
        | false => rfl
        | true => exact absurd (contains_iff_mem.mp hc) hnot

theorem pair_unique {l : List (String × String)} {src tgt : String}
    (hnd : (l.map Prod.fst).Nodup) (h1 : (src, tgt) ∈ l) {a : String × String}
    (ha : a ∈ l) (he : a.1 = src) : a = (src, tgt) := by
  have hf := filter_fst_eq_of_nodup hnd h1
  have hmemf : a ∈ l.filter (fun x => x.1 == src) :=
    List.mem_filter.mpr ⟨ha, by simp [he]⟩
  rw [hf] at hmemf
  simpa using hmemf

/-- C2.  The reconciliation pass removes an existing alias `(src, tgt)`
exactly when the local part of `src` is exactly `postmaster` or `admin`,
`src` is not in the required-alias set, and `tgt` is exactly
`administrator@primary-hostname`.  In particular a `postmaster@`/`admin@`
alias whose destination was repointed anywhere else survives. -/
theorem kick_removal_iff (env : Env) (s : State) (hwf : WFState s)
    (hEnc : ∀ d', asciiDomainB d' = true → env.encodeIdna d' = some d')
    (hph : asciiDomainB env.primaryHostname = true)
    (src tgt : String) (hmem : (src, tgt) ∈ s.aliases) :
    src ∉ ((kickActions env s).2.aliases.map Prod.fst)
      ↔ ((∃ dom, splitEmail src = some ("postmaster", dom)
            ∨ splitEmail src = some ("admin", dom))
         ∧ src ∉ get_required_aliases env s
         ∧ tgt = get_system_administrator env) := by
  rw [kickActions_spec env s hwf hEnc hph]
  rw [← kickRemoveCond_iff env (get_required_aliases env s) src tgt]
  have hmemA : (src, tgt) ∈ get_mail_aliases env s :=
    (get_mail_aliases_mem env s hwf.2.2 (src, tgt)).mpr hmem
  constructor
  · intro habs
    by_contra hc
    have hcf : kickRemoveCond env (get_required_aliases env s) (src, tgt)
        = false := by
      rw [Bool.not_eq_true] at hc
      exact hc
    apply habs
    apply List.mem_map.mpr
    refine ⟨(src, tgt), ?_, rfl⟩
    apply List.mem_filter.mpr
    refine ⟨List.mem_append.mpr (Or.inl hmem), ?_⟩
    have hany : ((get_mail_aliases env s).any (fun p =>
        kickRemoveCond env (get_required_aliases env s) p && p.1 == src))
        = false := by
      cases hany : (get_mail_aliases env s).any (fun p =>
          kickRemoveCond env (get_required_aliases env s) p && p.1 == src) with
      | false => rfl
      | true =>
        exfalso
        rcases List.any_eq_true.mp hany with ⟨p, hpA, hpq⟩
        simp only [Bool.and_eq_true, beq_iff_eq] at hpq
        have hpS : p ∈ s.aliases :=
          (get_mail_aliases_mem env s hwf.2.2 p).mp hpA
        have hpe : p = (src, tgt) := pair_unique hwf.2.2 hmem hpS hpq.2
        rw [hpe] at hpq
        rw [hpq.1] at hcf
        cases hcf
    simp [hany]
  · intro hcond hmem₂
    rcases List.mem_map.mp hmem₂ with ⟨a, ha, hae⟩
    rcases List.mem_filter.mp ha with ⟨ha₁, ha₂⟩
    rcases List.mem_append.mp ha₁ with hold | hadd
    · have ha3 : a = (src, tgt) := pair_unique hwf.2.2 hmem hold hae
      have hany : ((get_mail_aliases env s).any (fun p =>
          kickRemoveCond env (get_required_aliases env s) p && p.1 == a.1))
          = true := by
        apply List.any_eq_true.mpr
        exact ⟨(src, tgt), hmemA, by simp [hcond, ha3]⟩
      rw [hany] at ha₂
      exact absurd ha₂ (by simp)
    · rcases List.mem_map.mp hadd with ⟨r, hr, hre⟩
      have hrs : r = src := by
        have : a.1 = r := by rw [← hre]
        rw [← this, hae]
      have hr₂ : r ∈ get_required_aliases env s := by
        unfold kickAddedList at hr
        exact (List.mem_filter.mp hr).1
      exact absurd (hrs ▸ hr₂)
        ((kickRemoveCond_iff env _ src tgt).mp hcond).2.1

/-! ### Claim C1: idempotence of the reconciliation pass -/

/-- The alias table after one `kick` pass, in closed form. -/
def kickNewAliases (env : Env) (s : State) : List (String × String) :=
  (s.aliases ++ (kickAddedList env s).map
      (fun r => (r, get_system_administrator env))).filter
    (fun a => !((get_mail_aliases env s).any (fun p =>
      kickRemoveCond env (get_required_aliases env s) p && p.1 == a.1)))

/-- The state after one `kick` pass, in closed form. -/
def kickResultState (env : Env) (s : State) : State :=
  { s with aliases := kickNewAliases env s }

theorem kickActions_state (env : Env) (s : State) (hwf : WFState s)
    (hEnc : ∀ d', asciiDomainB d' = true → env.encodeIdna d' = some d')
    (hph : asciiDomainB env.primaryHostname = true) :
    (kickActions env s).2 = kickResultState env s := by
  rw [kickActions_spec env s hwf hEnc hph]
  rfl

theorem notUpperB_of {c : Char} (h : ¬ (65 ≤ c.toNat ∧ c.toNat ≤ 90)) :
    notUpperB c = true := by
  unfold notUpperB isUpperAlpha
  rcases Decidable.not_and_iff_or_not.mp h with h₁ | h₁ <;> simp [h₁]

theorem wfSourceB_of_goodReq {r : String} (h : GoodReq r) :
    wfSourceB r = true := by
  obtain ⟨lp, d, hlp, hd, hre⟩ := h
  obtain ⟨hat, hloc, hne, hsp, hnu⟩ := reqLocal_facts hlp
  subst hre
  unfold wfSourceB
  rw [Bool.and_eq_true]
  refine ⟨shaped_validate_alias hat hloc hd, ?_⟩
  rw [List.all_eq_true]
  intro c hc
  rw [data_append_eq] at hc
  rcases List.mem_append.mp hc with h₁ | h₂
  · exact notUpperB_of (hnu c h₁)
  · rcases List.mem_cons.mp h₂ with h₃ | h₄
    · subst h₃; decide
    · exact notUpperB_of (asciiDomain_no_upper hd c h₄)

theorem postmaster_lit : ("postmaster" ++ "@" : String) = "postmaster@" := by
  apply string_eq_of_data
  rw [string_append_data]
  rfl

theorem admin_lit : ("admin" ++ "@" : String) = "admin@" := by
  apply string_eq_of_data
  rw [string_append_data]
  rfl

theorem requiredAliasFilter_postmaster (d t : String) :
    requiredAliasFilter ("postmaster" ++ "@" ++ d, t) = false := by
  unfold requiredAliasFilter
  rw [show ("postmaster@" : String) = "postmaster" ++ "@" from postmaster_lit.symm]
  rw [pyStartsWith_shape]
  rfl

theorem requiredAliasFilter_admin (d t : String) :
    requiredAliasFilter ("admin" ++ "@" ++ d, t) = false := by
  unfold requiredAliasFilter
  rw [show ("admin@" : String) = "admin" ++ "@" from admin_lit.symm]
  rw [pyStartsWith_shape]
  simp

theorem requiredAliasFilter_administrator (ph t : String) :
    requiredAliasFilter ("administrator" ++ "@" ++ ph, t) = true := by
  unfold requiredAliasFilter
  have h1 : pyStartsWith ("administrator" ++ "@" ++ ph) "postmaster@" = false := by
    unfold pyStartsWith
    rw [data_append_eq]
    rfl
  have h2 : pyStartsWith ("administrator" ++ "@" ++ ph) "admin@" = false := by
    unfold pyStartsWith
    rw [data_append_eq]
    rfl
  have h3 : pyStartsWith ("administrator" ++ "@" ++ ph) "@" = false := by
    unfold pyStartsWith
    rw [data_append_eq]
    rfl
  rw [h1, h2, h3]
  rfl

theorem requiredAliasFilter_hostmaster (ph t : String) :
    requiredAliasFilter ("hostmaster" ++ "@" ++ ph, t) = true := by
  unfold requiredAliasFilter
  have h1 : pyStartsWith ("hostmaster" ++ "@" ++ ph) "postmaster@" = false := by
    unfold pyStartsWith
    rw [data_append_eq]
    rfl
  have h2 : pyStartsWith ("hostmaster" ++ "@" ++ ph) "admin@" = false := by
    unfold pyStartsWith
    rw [data_append_eq]
    rfl
  have h3 : pyStartsWith ("hostmaster" ++ "@" ++ ph) "@" = false := by
    unfold pyStartsWith
    rw [data_append_eq]
    rfl
  rw [h1, h2, h3]
  rfl

/-- An alias matching the removal condition has a `postmaster@`/`admin@`
source, hence never passes `requiredAliasFilter`. -/
theorem cond_filter_false (env : Env) (required : List String)
    {a : String × String}
    (h : kickRemoveCond env required a = true) :
    requiredAliasFilter a = false := by
  unfold kickRemoveCond at h
  cases hs : splitEmail a.1 with
  | none => rw [hs] at h; cases h
  | some q =>
    obtain ⟨user, dom⟩ := q
    rw [hs] at h
    simp only [Bool.and_eq_true, Bool.or_eq_true, decide_eq_true_eq] at h
    rcases splitEmail_eq_some hs with ⟨he, _, _⟩
    rcases h.1.1 with hu | hu
    · have : a = ("postmaster" ++ "@" ++ dom, a.2) := by
        rw [← hu, ← he]
      rw [this]
      exact requiredAliasFilter_postmaster dom a.2
    · have : a = ("admin" ++ "@" ++ dom, a.2) := by
        rw [← hu, ← he]
      rw [this]
      exact requiredAliasFilter_admin dom a.2

theorem contains_congr {L M : List String}
    (h : ∀ x, x ∈ L ↔ x ∈ M) (x : String) :
    L.contains x = M.contains x := by
  cases hc : M.contains x with
  | true => exact contains_iff_mem.mpr ((h x).mpr (contains_iff_mem.mp hc))
  | false =>
    cases hl : L.contains x with
    | false => rfl
    | true =>
      have : M.contains x = true :=
        contains_iff_mem.mpr ((h x).mp (contains_iff_mem.mp hl))
      rw [this] at hc
      cases hc

theorem kickRemoveCond_congr (env : Env) {L M : List String}
    (h : ∀ x, x ∈ L ↔ x ∈ M) (p : String × String) :
    kickRemoveCond env L p = kickRemoveCond env M p := by
  unfold kickRemoveCond
  cases splitEmail p.1 with
  | none => rfl
  | some q => rw [contains_congr h p.1]

/-- An alias of `s` that does not itself match the removal condition
survives the pass. -/
theorem survives_kick (env : Env) (s : State) (hwf : WFState s)
    {a : String × String} (ha : a ∈ s.aliases)
    (hnc : kickRemoveCond env (get_required_aliases env s) a = false) :
    a ∈ kickNewAliases env s := by
  unfold kickNewAliases
  apply List.mem_filter.mpr
  refine ⟨List.mem_append.mpr (Or.inl ha), ?_⟩
  have hany : ((get_mail_aliases env s).any (fun p =>
      kickRemoveCond env (get_required_aliases env s) p && p.1 == a.1))
      = false := by
    cases hc : (get_mail_aliases env s).any (fun p =>
        kickRemoveCond env (get_required_aliases env s) p && p.1 == a.1) with
    | false => rfl
    | true =>
      exfalso
      rcases List.any_eq_true.mp hc with ⟨p, hpA, hpq⟩
      simp only [Bool.and_eq_true, beq_iff_eq] at hpq
      have hpS : p ∈ s.aliases :=
        (get_mail_aliases_mem env s hwf.2.2 p).mp hpA
      have ha' : (a.1, a.2) ∈ s.aliases := ha
      have hpe : p = (a.1, a.2) := pair_unique hwf.2.2 ha' hpS hpq.2
      have : kickRemoveCond env (get_required_aliases env s) (a.1, a.2) = true :=
        hpe ▸ hpq.1
      rw [show ((a.1, a.2) : String × String) = a from rfl] at this
      rw [this] at hnc
      cases hnc
  simp [hany]

/-- A freshly added required alias survives the removal phase of the same
pass. -/
theorem added_survives_kick (env : Env) (s : State) (hwf : WFState s)
    {r : String} (hr : r ∈ kickAddedList env s) :
    (r, get_system_administrator env) ∈ kickNewAliases env s := by
  unfold kickNewAliases
  apply List.mem_filter.mpr
  constructor
  · exact List.mem_append.mpr (Or.inr (List.mem_map_of_mem _ hr))
  · have hnotin : r ∉ s.aliases.map Prod.fst := by
      unfold kickAddedList at hr
      rcases List.mem_filter.mp hr with ⟨hr₁, hr₂⟩
      exact keep_notin env s hwf r hr₁ hr₂
    have hany : ((get_mail_aliases env s).any (fun p =>
        kickRemoveCond env (get_required_aliases env s) p && p.1 == r))
        = false := by
      cases hc : (get_mail_aliases env s).any (fun p =>
          kickRemoveCond env (get_required_aliases env s) p && p.1 == r) with
      | false => rfl
      | true =>
        exfalso
        rcases List.any_eq_true.mp hc with ⟨p, hpA, hpq⟩
        simp only [Bool.and_eq_true, beq_iff_eq] at hpq
        apply hnotin
        have hpS : p ∈ s.aliases :=
          (get_mail_aliases_mem env s hwf.2.2 p).mp hpA
        exact hpq.2 ▸ List.mem_map_of_mem Prod.fst hpS
    simp [hany]

theorem kickNewAliases_fst_nodup (env : Env) (s : State) (hwf : WFState s) :
    ((kickNewAliases env s).map Prod.fst).Nodup := by
  unfold kickNewAliases
  apply List.Nodup.sublist ((List.filter_sublist _).map Prod.fst)
  rw [List.map_append, List.map_map]
  have hid : (Prod.fst ∘ fun r => (r, get_system_administrator env))
      = (id : String → String) := by
    funext r; rfl
  rw [hid, List.map_id]
  apply List.Nodup.append hwf.2.2 ((required_nodup env s).filter _)
  intro x hx₁ hx₂
  rcases List.mem_filter.mp hx₂ with ⟨hm, hk⟩
  exact keep_notin env s hwf x hm hk hx₁

/-- The store invariant is preserved by a `kick` pass. -/
theorem WFState_kickResult (env : Env) (s : State) (hwf : WFState s)
    (hph : asciiDomainB env.primaryHostname = true) :
    WFState (kickResultState env s) := by
  refine ⟨fun u hu => hwf.1 u hu, ?_, kickNewAliases_fst_nodup env s hwf⟩
  intro a ha
  unfold kickResultState kickNewAliases at ha
  rcases List.mem_append.mp (List.mem_filter.mp ha).1 with hold | hadd
  · exact hwf.2.1 a hold
  · rcases List.mem_map.mp hadd with ⟨r, hr, hre⟩
    have hg : GoodReq r := by
      unfold kickAddedList at hr
      exact goodReq_of_required env s hwf hph r (List.mem_filter.mp hr).1
    have : a.1 = r := by rw [← hre]
    rw [this]
    exact wfSourceB_of_goodReq hg

/-- The served-domain characterisation is unchanged by a `kick` pass,
provided the primary hostname's domain was already served: removals only
drop `postmaster@`/`admin@` sources (which never pass
`requiredAliasFilter`), and additions only contribute sources on the
primary hostname. -/
theorem kick_served_eq (env : Env) (s : State) (hwf : WFState s)
    (hph : asciiDomainB env.primaryHostname = true)
    (hserved : env.primaryHostname ∈ get_mail_domains env s requiredAliasFilter) :
    ∀ dd, ((∃ u ∈ (kickResultState env s).users, domainOfD u.email = dd)
        ∨ (∃ a ∈ (kickResultState env s).aliases,
            requiredAliasFilter a = true ∧ domainOfD a.1 = dd))
      ↔ ((∃ u ∈ s.users, domainOfD u.email = dd)
        ∨ (∃ a ∈ s.aliases, requiredAliasFilter a = true ∧ domainOfD a.1 = dd)) := by
  intro dd
  constructor
  · rintro (⟨u, hu, hd⟩ | ⟨a, ha, hf, hd⟩)
    · exact Or.inl ⟨u, hu, hd⟩
    · rcases List.mem_append.mp (List.mem_filter.mp ha).1 with hold | hadd
      · exact Or.inr ⟨a, hold, hf, hd⟩
      · rcases List.mem_map.mp hadd with ⟨r, hr, hre⟩
        have hrR : r ∈ get_required_aliases env s := by
          unfold kickAddedList at hr
          exact (List.mem_filter.mp hr).1
        have ha1 : a.1 = r := by rw [← hre]
        have hfa : requiredAliasFilter (r, a.2) = true := by
          have : a = (r, a.2) := by rw [← ha1]
          rw [← this]
          exact hf
        rcases (get_required_aliases_mem env s hwf.2.2 r).mp hrR
          with h₁ | h₁ | ⟨d₂, _, h₃ | h₃⟩
        · have hdph : domainOfD a.1 = env.primaryHostname := by
            rw [ha1, h₁, administrator_split]
            exact domainOfD_append _ (by decide)
          have hdd : dd = env.primaryHostname := by rw [← hd, hdph]
          rw [hdd]
          exact (get_mail_domains_mem env s requiredAliasFilter hwf.2.2
            env.primaryHostname).mp hserved
        · have hdph : domainOfD a.1 = env.primaryHostname := by
            rw [ha1, h₁, hostmaster_split]
            exact domainOfD_append _ (by decide)
          have hdd : dd = env.primaryHostname := by rw [← hd, hdph]
          rw [hdd]
          exact (get_mail_domains_mem env s requiredAliasFilter hwf.2.2
            env.primaryHostname).mp hserved
        · exfalso
          rw [h₃, postmaster_split d₂] at hfa
          rw [requiredAliasFilter_postmaster] at hfa
          cases hfa
        · exfalso
          rw [h₃, admin_split d₂] at hfa
          rw [requiredAliasFilter_admin] at hfa
          cases hfa
  · rintro (⟨u, hu, hd⟩ | ⟨a, ha, hf, hd⟩)
    · exact Or.inl ⟨u, hu, hd⟩
    · right
      refine ⟨a, ?_, hf, hd⟩
      apply survives_kick env s hwf ha
      cases hc : kickRemoveCond env (get_required_aliases env s) a with
      | false => rfl
      | true =>
        exfalso
        rw [cond_filter_false env _ hc] at hf
        cases hf

/-- The required-alias set is unchanged by a `kick` pass (membership),
provided the primary hostname's domain was already served. -/
theorem kick_required_eq (env : Env) (s : State) (hwf : WFState s)
    (hph : asciiDomainB env.primaryHostname = true)
    (hserved : env.primaryHostname ∈ get_mail_domains env s requiredAliasFilter) :
    ∀ x, x ∈ get_required_aliases env (kickResultState env s)
      ↔ x ∈ get_required_aliases env s := by
  intro x
  rw [get_required_aliases_mem env (kickResultState env s)
      (kickNewAliases_fst_nodup env s hwf) x,
    get_required_aliases_mem env s hwf.2.2 x]
  have hserv := kick_served_eq env s hwf hph hserved
  constructor <;> rintro (h | h | ⟨d, hd, hx⟩)
  · exact Or.inl h
  · exact Or.inr (Or.inl h)
  · exact Or.inr (Or.inr ⟨d, (hserv d).mp hd, hx⟩)
  · exact Or.inl h
  · exact Or.inr (Or.inl h)
  · exact Or.inr (Or.inr ⟨d, (hserv d).mpr hd, hx⟩)

/-- After one pass, every required alias is satisfied: the second pass
adds nothing. -/
theorem kickAddedList_after (env : Env) (s : State) (hwf : WFState s)
    (hEnc : ∀ d', asciiDomainB d' = true → env.encodeIdna d' = some d')
    (hph : asciiDomainB env.primaryHostname = true)
    (hserved : env.primaryHostname ∈ get_mail_domains env s requiredAliasFilter) :
    kickAddedList env (kickResultState env s) = [] := by
  unfold kickAddedList
  apply List.filter_eq_nil_iff.mpr
  intro r hrR₁
  have hrR : r ∈ get_required_aliases env s :=
    (kick_required_eq env s hwf hph hserved r).mp hrR₁
  intro hkeep
  by_cases hu : r ∈ s.users.map (·.email)
  · have hcont : (get_mail_users env (kickResultState env s)).contains r
        = true :=
      contains_iff_mem.mpr ((get_mail_users_mem env _ r).mpr hu)
    unfold kickKeepB at hkeep
    rw [hcont] at hkeep
    cases hkeep
  · have hmem₁ : ∃ q ∈ kickNewAliases env s, q.1 = r := by
      by_cases hsrc : r ∈ s.aliases.map Prod.fst
      · rcases List.mem_map.mp hsrc with ⟨a, ha, hae⟩
        have hcond : kickRemoveCond env (get_required_aliases env s) a
            = false := by
          unfold kickRemoveCond
          cases hsp : splitEmail a.1 with
          | none => rfl
          | some q =>
            have hcr : (get_required_aliases env s).contains a.1 = true := by
              apply contains_iff_mem.mpr
              rw [hae]
              exact hrR
            rw [hcr]
            simp
        exact ⟨a, survives_kick env s hwf ha hcond, hae⟩
      · have hkeepS : kickKeepB (get_mail_users env s)
            (get_mail_aliases env s) r = true := by
          unfold kickKeepB
          have h1 : (get_mail_users env s).contains r = false := by
            cases hc : (get_mail_users env s).contains r with
            | false => rfl
            | true =>
              exact absurd ((get_mail_users_mem env s r).mp
                (contains_iff_mem.mp hc)) hu
          have h2 : ((get_mail_aliases env s).any (fun p => p.1 == r))
              = false := by
            cases hc : (get_mail_aliases env s).any (fun p => p.1 == r) with
            | false => rfl
            | true =>
              exfalso
              rcases List.any_eq_true.mp hc with ⟨p, hpA, hpq⟩
              apply hsrc
              have : p.1 = r := by simpa using hpq
              exact this ▸ List.mem_map_of_mem Prod.fst
                ((get_mail_aliases_mem env s hwf.2.2 p).mp hpA)
          rw [h1, h2]
          rfl
        have hrAL : r ∈ kickAddedList env s := by
          unfold kickAddedList
          exact List.mem_filter.mpr ⟨hrR, hkeepS⟩
        exact ⟨(r, get_system_administrator env),
          added_survives_kick env s hwf hrAL, rfl⟩
    rcases hmem₁ with ⟨q, hq, hqe⟩
    have hqA₁ : q ∈ get_mail_aliases env (kickResultState env s) :=
      (get_mail_aliases_mem env (kickResultState env s)
        (kickNewAliases_fst_nodup env s hwf) q).mpr hq
    have hany : ((get_mail_aliases env (kickResultState env s)).any
        (fun p => p.1 == r)) = true :=
      List.any_eq_true.mpr ⟨q, hqA₁, by simp [hqe]⟩
    unfold kickKeepB at hkeep
    rw [hany] at hkeep
    simp at hkeep

/-- After one pass, no alias matches the removal condition: the second
pass removes nothing. -/
theorem kickRemovedList_after (env : Env) (s : State) (hwf : WFState s)
    (hEnc : ∀ d', asciiDomainB d' = true → env.encodeIdna d' = some d')
    (hph : asciiDomainB env.primaryHostname = true)
    (hserved : env.primaryHostname ∈ get_mail_domains env s requiredAliasFilter) :
    ∀ p ∈ get_mail_aliases env (kickResultState env s),
      kickRemoveCond env
        (get_required_aliases env (kickResultState env s)) p = false := by
  intro p hpA₁
  rw [kickRemoveCond_congr env (kick_required_eq env s hwf hph hserved) p]
  have hp : p ∈ kickNewAliases env s :=
    (get_mail_aliases_mem env (kickResultState env s)
      (kickNewAliases_fst_nodup env s hwf) p).mp hpA₁
  rcases List.mem_append.mp (List.mem_filter.mp hp).1 with hold | hadd
  · have hPp := (List.mem_filter.mp hp).2
    cases hc : kickRemoveCond env (get_required_aliases env s) p with
    | false => rfl
    | true =>
      exfalso
      have hpA : p ∈ get_mail_aliases env s :=
        (get_mail_aliases_mem env s hwf.2.2 p).mpr hold
      have hany : ((get_mail_aliases env s).any (fun q =>
          kickRemoveCond env (get_required_aliases env s) q && q.1 == p.1))
          = true :=
        List.any_eq_true.mpr ⟨p, hpA, by simp [hc]⟩
      rw [hany] at hPp
      simp at hPp
  · rcases List.mem_map.mp hadd with ⟨r, hr, hre⟩
    have hrR : r ∈ get_required_aliases env s := by
      unfold kickAddedList at hr
      exact (List.mem_filter.mp hr).1
    have hp1 : p.1 = r := by rw [← hre]
    unfold kickRemoveCond
    cases hsp : splitEmail p.1 with
    | none => rfl
    | some q =>
      have hcr : (get_required_aliases env s).contains p.1 = true := by
        apply contains_iff_mem.mpr
        rw [hp1]
        exact hrR
      rw [hcr]
      simp

/-- C1 as amended.  For every well-formed directory state in which the
primary hostname's domain is already served (it carries a user address
or an alias source passing `requiredAliasFilter`), the reconciliation
pass is idempotent: a second consecutive pass performs no additions and
no removals, leaves the state unchanged, and its report consists of the
DNS and web regeneration output alone. -/
theorem kick_idempotent_of_served (env : Env) (s : State) (hwf : WFState s)
    (hEnc : ∀ d', asciiDomainB d' = true → env.encodeIdna d' = some d')
    (hph : asciiDomainB env.primaryHostname = true)
    (hserved : env.primaryHostname ∈ get_mail_domains env s requiredAliasFilter) :
    kickActions env (kickActions env s).2 = ([], (kickActions env s).2)
    ∧ (kick env (kickActions env s).2 none).1
        = String.join ([env.dnsUpdateResult, env.webUpdateResult].filter
            (fun r => r ≠ "")) := by
  have hstate := kickActions_state env s hwf hEnc hph
  have hwf₁ : WFState (kickResultState env s) := WFState_kickResult env s hwf hph
  have hremoved := kickRemovedList_after env s hwf hEnc hph hserved
  have hmain : kickActions env (kickResultState env s)
      = ([], kickResultState env s) := by
    rw [kickActions_spec env (kickResultState env s) hwf₁ hEnc hph]
    rw [kickAddedList_after env s hwf hEnc hph hserved]
    have hremlist : kickRemovedList env (kickResultState env s) = [] := by
      unfold kickRemovedList
      apply List.filter_eq_nil_iff.mpr
      intro p hp hcond
      rw [hremoved p hp] at hcond
      cases hcond
    rw [hremlist]
    simp only [List.map_nil, List.append_nil, List.nil_append]
    refine congrArg₂ Prod.mk rfl ?_
    have hfilter : ((kickResultState env s).aliases.filter
        (fun a => !((get_mail_aliases env (kickResultState env s)).any
          (fun p => kickRemoveCond env
            (get_required_aliases env (kickResultState env s)) p
            && p.1 == a.1))))
        = (kickResultState env s).aliases := by
      apply List.filter_eq_self.mpr
      intro a _
      have hany : ((get_mail_aliases env (kickResultState env s)).any
          (fun p => kickRemoveCond env
            (get_required_aliases env (kickResultState env s)) p
            && p.1 == a.1)) = false := by
        cases hc : (get_mail_aliases env (kickResultState env s)).any
            (fun p => kickRemoveCond env
              (get_required_aliases env (kickResultState env s)) p
              && p.1 == a.1) with
        | false => rfl
        | true =>
          exfalso
          rcases List.any_eq_true.mp hc with ⟨p, hpA, hpq⟩
          rw [Bool.and_eq_true] at hpq
          rw [hremoved p hpA] at hpq
          exact absurd hpq.1 (by simp)
      simp [hany]
    rw [hfilter]
  constructor
  · rw [hstate]
    exact hmain
  · rw [hstate]
    unfold kick
    rw [hmain]
    rfl

/-- C1 counterexample.  On an empty directory the primary hostname's
domain is not yet served, so the first pass adds only the
`administrator@` and `hostmaster@` aliases; those sources then make the
primary hostname served, and a second consecutive pass adds
`postmaster@` and `admin@` on top - the reconciliation is not idempotent
from every starting state, only from states where the primary hostname's
domain is already served. -/
theorem kick_not_idempotent_cex :
    (kickActions envW (kickActions envW stateEmpty).2).1
      = ["added alias postmaster@box.tld (=> administrator@box.tld)\n",
         "added alias admin@box.tld (=> administrator@box.tld)\n"]
    ∧ kickActions envW (kickActions envW stateEmpty).2
        ≠ ([], (kickActions envW stateEmpty).2) := by
  decide

/-- Witness for C1 at a concrete input: a directory with one account on
the primary hostname. -/
theorem kick_idempotent_of_served_witness :
    kickActions envW (kickActions envW stateOneUser).2
      = ([], (kickActions envW stateOneUser).2)
    ∧ (kick envW (kickActions envW stateOneUser).2 none).1
        = String.join ([envW.dnsUpdateResult, envW.webUpdateResult].filter
            (fun r => r ≠ "")) :=
  kick_idempotent_of_served envW stateOneUser (by decide)
    (fun d hd => by simp [envW, hd]) (by decide) (by decide)

/-- A directory with one account, one stale auto-generated administrative
alias on an otherwise-unused domain, and one manually repointed
administrative alias. -/
def stateC2W : State :=
  { users := [⟨"u@box.tld", "h", ""⟩],
    aliases := [("postmaster@old.tld", "administrator@box.tld"),
                ("admin@gone.tld", "human@elsewhere.tld")] }

/-- Witness for C2 at a concrete input: the stale pair
`postmaster@old.tld -> administrator@box.tld` is removed, while the
repointed pair `admin@gone.tld -> human@elsewhere.tld` survives because
its destination is no longer the administrator. -/
theorem kick_removal_iff_witness :
    "postmaster@old.tld" ∉ ((kickActions envW stateC2W).2.aliases.map Prod.fst)
    ∧ "admin@gone.tld" ∈ ((kickActions envW stateC2W).2.aliases.map Prod.fst) := by
  constructor
  · exact (kick_removal_iff envW stateC2W (by decide)
      (fun d hd => by simp [envW, hd]) (by decide)
      "postmaster@old.tld" "administrator@box.tld" (by decide)).mpr
      ⟨⟨"old.tld", Or.inl (by decide)⟩, by decide, by decide⟩
  · by_contra hnot
    have h := (kick_removal_iff envW stateC2W (by decide)
      (fun d hd => by simp [envW, hd]) (by decide)
      "admin@gone.tld" "human@elsewhere.tld" (by decide)).mp hnot
    exact absurd h.2.2 (by decide)

end Mailconfig
